import Mathlib

/-!
# hpx: for_each / for_each_n dispatch engine

Shallow embedding of `hpx/parallel/detail/for_each.hpp`.

Iterators are modelled by their position (a natural number) in the underlying
sequence; `first + count` is the iterator `first` advanced `count` times.  The
user function `f` is modelled by what matters to the engine: for the element at
a position it either completes (`none`) or faults (`some e`).  Every run records
the positions `f` was applied to, in the order of application, for each unit of
execution (the calling thread, or one partition).
-/

namespace hpx.parallel

/-! ## Data model -/

/-- The statically typed execution policies: `sequential_execution_policy`,
`parallel_execution_policy` and `task_execution_policy` (parallel-deferred). -/
inductive ConcretePolicy where
  | sequential
  | parallel
  | task
  deriving DecidableEq, Repr

/-- An execution policy argument: a statically typed policy, or the type-erased
`execution_policy` holding a concrete policy chosen at construction. -/
inductive ExecutionPolicy where
  | typed (p : ConcretePolicy)
  | erased (held : ConcretePolicy)
  deriving DecidableEq, Repr

/-- The concrete mode that is active in a policy value. -/
def ExecutionPolicy.held_policy : ExecutionPolicy → ConcretePolicy
  | .typed p => p
  | .erased p => p

/-- The iterator category of the range, as far as the engine looks at it
(`std::input_iterator_tag` or anything derived from `std::forward_iterator_tag`). -/
inductive IteratorCategory where
  | input_only
  | forward_or_better
  deriving DecidableEq, Repr

/-- A fault as it leaves the engine: either the fault produced by the exception
bridge from one escaping fault, or the aggregate the partitioner builds from the
faults of its partitions. -/
inductive Fault (ε : Type) where
  | normalized (e : ε)
  | aggregate (es : List ε)
  deriving DecidableEq, Repr

/-- What a pending handle (`hpx::future<T>`) resolves to. -/
inductive Handle (ε T : Type) where
  | ready (v : T)
  | failed (flt : Fault ε)
  deriving DecidableEq, Repr

/-- The type `algorithm_result<ExPolicy, T>::type`: `T` itself for synchronous
policies, a pending handle for the deferred policy. -/
inductive AlgResult (ε T : Type) where
  | direct (v : T)
  | deferred (h : Handle ε T)
  deriving DecidableEq, Repr

/-- How a call of an engine function ends: it returns a value, a fault
propagates out of it on the calling thread, or control reaches the closing brace
of the function body without having executed a `return` statement. -/
inductive Call (ε R : Type) where
  | returned (r : R)
  | raised (flt : Fault ε)
  | fell_through
  deriving DecidableEq, Repr

/-- How a plain loop over elements ends: normally with a value, or with the
fault the user function raised. -/
inductive Raw (ε T : Type) where
  | done (v : T)
  | threw (e : ε)
  deriving DecidableEq, Repr

/-- The record of one loop: the positions `f` was applied to, in order, and how
the loop ended. -/
structure Loop (ε T : Type) where
  trace : List Nat
  result : Raw ε T
  deriving DecidableEq, Repr

/-- Which machinery a call put to work, with the applications of `f` it made:
nothing at all, the sequential loop on the calling thread, or the partitioner
(one trace per partition, in range order of the partitions). -/
inductive Work where
  | idle
  | sequential_loop (trace : List Nat)
  | partitioned (traces : List (List Nat))
  deriving DecidableEq, Repr

/-- All applications of `f` made by a call, partition after partition. -/
def Work.applications : Work → List Nat
  | .idle => []
  | .sequential_loop t => t
  | .partitioned ts => ts.flatten

/-- The observable behaviour of one engine call. -/
structure Run (ε R : Type) where
  work : Work
  outcome : Call ε R
  deriving DecidableEq, Repr

/-! ## Collaborators that are not part of `for_each.hpp` -/

/-- Conversion of a signed value to `std::size_t`, `w` being the width of
`std::size_t`: reduction modulo `2 ^ w`. -/
def to_size_t (w : Nat) (n : Int) : Nat :=
  (n % (2 : Int) ^ w).toNat

/-- The standard `std::distance(first, last)` on positions: a signed difference. -/
def distance (first last : Nat) : Int :=
  (last : Int) - (first : Int)

/-- Modelled from the spec: `detail::is_negative<Size>::call` (header
`is_negative.hpp`), the count normaliser that recognises negative counts. -/
def detail.is_negative (count : Int) : Bool :=
  decide (count < 0)

/-- Modelled from the spec: the trait `is_sequential_execution_policy<ExPolicy>`
(header `execution_policy.hpp`).  It looks at the static type of the policy only,
so it holds for the statically typed sequential policy and for nothing else. -/
def is_sequential_execution_policy : ExecutionPolicy → Bool
  | .typed .sequential => true
  | _ => false

/-- Modelled from the spec: `detail::algorithm_result<ExPolicy, T>::get`
(header `algorithm_result.hpp`), the result-channel constructor: the value
itself for synchronous policies and for the type-erased policy (whose overloads
return a plain `InIter` or `void`), a ready handle for the deferred policy. -/
def detail.algorithm_result.get {ε T : Type} (policy : ExecutionPolicy) (v : T) :
    AlgResult ε T :=
  match policy with
  | .typed .task => .deferred (.ready v)
  | _ => .direct v

/-- What a call of the exception bridge does with the fault in flight. -/
inductive Bridge (ε : Type) where
  | rethrown (flt : Fault ε)
  | captured (flt : Fault ε)
  deriving DecidableEq, Repr

/-- Modelled from the spec: `detail::handle_exception<ExPolicy>::call`
(header `algorithm_result.hpp`), the exception bridge, called inside a
catch-all for the fault `e` in flight: it re-raises the normalised fault for
synchronous policies; for the deferred policy it captures the normalised fault
for the failure slot of a pending result and returns normally. -/
def detail.handle_exception.call {ε : Type} (policy : ConcretePolicy) (e : ε) : Bridge ε :=
  match policy with
  | .task => .captured (.normalized e)
  | _ => .rethrown (.normalized e)

/-- Modelled from the spec: `util::loop_n(it, count, f)` (header `loop.hpp`),
the range-apply primitive: applies `f` to `count` consecutive elements starting
at `it`, in order, and returns the iterator past the last processed element; a
fault of `f` ends the loop at once. -/
def util.loop_n {ε : Type} (it : Nat) (count : Nat) (f : Nat → Option ε) : Loop ε Nat :=
  match count with
  | 0 => ⟨[], .done it⟩
  | c + 1 =>
    match f it with
    | some e => ⟨[it], .threw e⟩
    | none =>
      let r := util.loop_n (it + 1) c f
      ⟨it :: r.trace, r.result⟩

/-- The standard algorithm `std::for_each(first, last, f)`:
`for (; first != last; ++first) f(*first);`.  The loop is bounded by `fuel`
iterations of its test; `none` means the fuel ran out. -/
def std_for_each {ε : Type} (fuel : Nat) (first last : Nat) (f : Nat → Option ε) :
    Option (Loop ε Unit) :=
  match fuel with
  | 0 => none
  | k + 1 =>
    if first = last then some ⟨[], .done ()⟩
    else
      match f first with
      | some e => some ⟨[first], .threw e⟩
      | none =>
        match std_for_each k (first + 1) last f with
        | none => none
        | some r => some ⟨first :: r.trace, r.result⟩

/-- The partitions of a split: the sub-range starting at `part_begin` is handed
to `applyFn` with its size, the next one starts right behind it. -/
def util.run_partitions {ε : Type} (part_begin : Nat) (split : List Nat)
    (applyFn : Nat → Nat → Loop ε Unit) : List (Loop ε Unit) :=
  match split with
  | [] => []
  | n :: rest => applyFn part_begin n :: util.run_partitions (part_begin + n) rest applyFn

/-- The record of a loop whose returned iterator is not used. -/
def Loop.forget {ε T : Type} (r : Loop ε T) : Loop ε Unit :=
  { trace := r.trace
    result :=
      match r.result with
      | .done _ => .done ()
      | .threw e => .threw e }

/-- The fault of a loop, if it ended with one. -/
def Loop.fault {ε T : Type} (r : Loop ε T) : Option ε :=
  match r.result with
  | .done _ => none
  | .threw e => some e

/-- Modelled from the spec: `util::partitioner<ExPolicy>::call(policy, first,
count, applyFn)` (header `partitioner.hpp`).  The partitioner cuts the range
into the contiguous sub-ranges whose sizes are `split` (its own choice), runs
`applyFn` on each of them, never cancels a partition because another one
faulted, and combines the faults of all partitions into one aggregate.  On
success the result is `first` advanced by `count`; the aggregate is raised for
the synchronous parallel policy and stored in the handle for the deferred one. -/
def util.partitioner.call {ε : Type} (policy : ConcretePolicy) (first count : Nat)
    (split : List Nat) (applyFn : Nat → Nat → Loop ε Unit) : Run ε (AlgResult ε Nat) :=
  let parts := util.run_partitions first split applyFn
  let faults := parts.filterMap Loop.fault
  { work := .partitioned (parts.map Loop.trace)
    outcome :=
      match faults with
      | [] => .returned (detail.algorithm_result.get (.typed policy) (first + count))
      | e :: es =>
        match policy with
        | .task => .returned (.deferred (.failed (.aggregate (e :: es))))
        | _ => .raised (.aggregate (e :: es)) }

/-- Modelled from the spec: what `hpx::util::void_guard<result_type>(), expr`
and the conversion to the `void` result type keep of a result: the value is
dropped, a handle keeps resolving, now to nothing or to the same failure. -/
def AlgResult.discard_value {ε T : Type} : AlgResult ε T → AlgResult ε Unit
  | .direct _ => .direct ()
  | .deferred (.ready _) => .deferred (.ready ())
  | .deferred (.failed flt) => .deferred (.failed flt)

/-- The same conversion applied to the way a call ends. -/
def Call.discard_value {ε T : Type} : Call ε (AlgResult ε T) → Call ε (AlgResult ε Unit)
  | .returned v => .returned v.discard_value
  | .raised flt => .raised flt
  | .fell_through => .fell_through

/-- The value a result stands for: itself, or what the handle resolves to. -/
def AlgResult.resolve {ε T : Type} : AlgResult ε T → Handle ε T
  | .direct v => .ready v
  | .deferred h => h

/-- Modelled from the spec: the result of a statically typed path as seen
through an overload for the type-erased policy, whose declared return type is
the plain `InIter` (or `void`): a handle is waited for, its value is returned
and its failure raised. -/
def Call.as_plain {ε T : Type} : Call ε (AlgResult ε T) → Call ε (AlgResult ε T)
  | .returned (.direct v) => .returned (.direct v)
  | .returned (.deferred (.ready v)) => .returned (.direct v)
  | .returned (.deferred (.failed flt)) => .raised flt
  | .raised flt => .raised flt
  | .fell_through => .fell_through

/-! ## for_each_n (`for_each.hpp`, lines 28-183) -/

/-- The overload `detail::for_each_n(ExPolicy const&, first, count, f,
boost::mpl::true_)`: the sequential loop inside a catch-all that calls the
exception bridge.  The value of the bridge call is not returned: when the bridge
returns normally, control leaves the catch block and reaches the end of the
function. -/
def detail.for_each_n_seq {ε : Type} (policy : ConcretePolicy) (first count : Nat)
    (f : Nat → Option ε) : Run ε (AlgResult ε Nat) :=
  let r := util.loop_n first count f
  { work := .sequential_loop r.trace
    outcome :=
      match r.result with
      | .done it => .returned (detail.algorithm_result.get (.typed policy) it)
      | .threw e =>
        match detail.handle_exception.call policy e with
        | .rethrown flt => .raised flt
        | .captured _ => .fell_through }

/-- The overload `detail::for_each_n(ExPolicy const& policy, first, count, f,
boost::mpl::false_)`: the partitioner with a per-partition `loop_n` when
`count > 0`, otherwise the result built from `first`. -/
def detail.for_each_n_par {ε : Type} (split : List Nat) (policy : ConcretePolicy)
    (first count : Nat) (f : Nat → Option ε) : Run ε (AlgResult ε Nat) :=
  if count > 0 then
    util.partitioner.call policy first count split
      (fun part_begin part_count => (util.loop_n part_begin part_count f).forget)
  else
    { work := .idle
      outcome := .returned (detail.algorithm_result.get (.typed policy) first) }

/-- Modelled from the spec: the macro `HPX_PARALLEL_DISPATCH(policy,
detail::for_each_n, first, count, f)` inside the overload for
`execution_policy const&` and `boost::mpl::false_`: the visitor-style
re-dispatch that re-enters the statically typed path of the held policy. -/
def detail.for_each_n_dispatch {ε : Type} (split : List Nat) (held : ConcretePolicy)
    (first count : Nat) (f : Nat → Option ε) : Run ε (AlgResult ε Nat) :=
  let r :=
    match held with
    | .sequential => detail.for_each_n_seq .sequential first count f
    | p => detail.for_each_n_par split p first count f
  { work := r.work, outcome := r.outcome.as_plain }

/-- Overload resolution of `detail::for_each_n(policy, first, count, f, tag)` on
the static type of the policy and on the tag `is_seq()`. -/
def detail.for_each_n {ε : Type} (split : List Nat) (policy : ExecutionPolicy)
    (first count : Nat) (f : Nat → Option ε) (tag : Bool) : Run ε (AlgResult ε Nat) :=
  match policy, tag with
  | .typed p, true => detail.for_each_n_seq p first count f
  | .typed p, false => detail.for_each_n_par split p first count f
  | .erased held, false => detail.for_each_n_dispatch split held first count f
  | .erased _, true => detail.for_each_n_seq .sequential first count f

/-- The tag `is_seq`: `boost::mpl::or_<is_sequential_execution_policy<ExPolicy>,
boost::is_same<std::input_iterator_tag, iterator_category>>`. -/
def is_seq (policy : ExecutionPolicy) (cat : IteratorCategory) : Bool :=
  is_sequential_execution_policy policy || decide (cat = .input_only)

/-- The public `for_each_n(policy, first, count, f)`; `count` has the caller's
signed type `Size`, `w` is the width of `std::size_t` and `split` the choice of
the partitioner. -/
def for_each_n {ε : Type} (w : Nat) (split : List Nat) (policy : ExecutionPolicy)
    (cat : IteratorCategory) (first : Nat) (count : Int) (f : Nat → Option ε) :
    Run ε (AlgResult ε Nat) :=
  if detail.is_negative count then
    { work := .idle
      outcome := .returned (detail.algorithm_result.get policy first) }
  else
    detail.for_each_n split policy first (to_size_t w count) f (is_seq policy cat)

/-! ## for_each (`for_each.hpp`, lines 185-320) -/

/-- The overload `detail::for_each(ExPolicy const&, first, last, f,
boost::mpl::true_)`: `std::for_each` inside a catch-all that calls the exception
bridge, whose value is not returned. -/
def detail.for_each_seq {ε : Type} (fuel : Nat) (policy : ConcretePolicy) (first last : Nat)
    (f : Nat → Option ε) : Option (Run ε (AlgResult ε Unit)) :=
  match std_for_each fuel first last f with
  | none => none
  | some r =>
    some
      { work := .sequential_loop r.trace
        outcome :=
          match r.result with
          | .done _ => .returned (detail.algorithm_result.get (.typed policy) ())
          | .threw e =>
            match detail.handle_exception.call policy e with
            | .rethrown flt => .raised flt
            | .captured _ => .fell_through }

/-- The overload `detail::for_each(ExPolicy const& policy, first, last, f,
boost::mpl::false_)`: the parallel `for_each_n` on `std::distance(first, last)`
converted to `std::size_t`, its iterator dropped by the `void_guard`. -/
def detail.for_each_fwd {ε : Type} (w : Nat) (split : List Nat) (policy : ConcretePolicy)
    (first last : Nat) (f : Nat → Option ε) : Run ε (AlgResult ε Unit) :=
  let r := detail.for_each_n_par split policy first (to_size_t w (distance first last)) f
  { work := r.work, outcome := r.outcome.discard_value }

/-- Modelled from the spec: the macro `HPX_PARALLEL_DISPATCH(policy,
detail::for_each, first, last, f)` inside the overload for
`execution_policy const&` and `boost::mpl::false_`. -/
def detail.for_each_dispatch {ε : Type} (w : Nat) (split : List Nat) (fuel : Nat)
    (held : ConcretePolicy) (first last : Nat) (f : Nat → Option ε) :
    Option (Run ε (AlgResult ε Unit)) :=
  let r :=
    match held with
    | .sequential => detail.for_each_seq fuel .sequential first last f
    | p => some (detail.for_each_fwd w split p first last f)
  r.map fun x => { work := x.work, outcome := x.outcome.as_plain }

/-- Overload resolution of `detail::for_each(policy, first, last, f, tag)`. -/
def detail.for_each {ε : Type} (w : Nat) (split : List Nat) (fuel : Nat)
    (policy : ExecutionPolicy) (first last : Nat) (f : Nat → Option ε) (tag : Bool) :
    Option (Run ε (AlgResult ε Unit)) :=
  match policy, tag with
  | .typed p, true => detail.for_each_seq fuel p first last f
  | .typed p, false => some (detail.for_each_fwd w split p first last f)
  | .erased held, false => detail.for_each_dispatch w split fuel held first last f
  | .erased _, true => detail.for_each_seq fuel .sequential first last f

/-- The public `for_each(policy, first, last, f)`. -/
def for_each {ε : Type} (w : Nat) (split : List Nat) (fuel : Nat) (policy : ExecutionPolicy)
    (cat : IteratorCategory) (first last : Nat) (f : Nat → Option ε) :
    Option (Run ε (AlgResult ε Unit)) :=
  detail.for_each w split fuel policy first last f (is_seq policy cat)

/-! ## for_each over iterators that are traversed to measure the range -/

/-- The standard `std::distance(first, last)` for iterators that are not random
access: `while (first != last) { ++first; ++n; }`.  The increment of the
iterator at a position is an element access function of the caller: `advance`
tells for each position whether it completes (`none`) or faults (`some e`).
The loop is bounded by `fuel` iterations of its test; `none` means the fuel ran
out. -/
def std_distance {ε : Type} (fuel : Nat) (first last : Nat) (advance : Nat → Option ε) :
    Option (Raw ε Int) :=
  match fuel with
  | 0 => none
  | k + 1 =>
    if first = last then some (.done 0)
    else
      match advance first with
      | some e => some (.threw e)
      | none =>
        match std_distance k (first + 1) last advance with
        | none => none
        | some (.done n) => some (.done (n + 1))
        | some (.threw e) => some (.threw e)

/-- The overload `detail::for_each(ExPolicy const& policy, first, last, f,
boost::mpl::false_)` over such iterators, with the evaluation of the argument
`std::distance(first, last)` written out.  The body of the function is the one
`return` statement and has no `try` block: a fault raised while the argument is
evaluated leaves the function as it was raised (`.threw e`), and
`detail::for_each_n` is not called.  Otherwise the call is the one of
`detail.for_each_fwd` on the measured distance. -/
def detail.for_each_fwd_measured {ε : Type} (fuel : Nat) (w : Nat) (split : List Nat)
    (policy : ConcretePolicy) (first last : Nat) (advance : Nat → Option ε)
    (f : Nat → Option ε) : Option (Raw ε (Run ε (AlgResult ε Unit))) :=
  match std_distance fuel first last advance with
  | none => none
  | some (.threw e) => some (.threw e)
  | some (.done d) =>
    let r := detail.for_each_n_par split policy first (to_size_t w d) f
    some (.done { work := r.work, outcome := r.outcome.discard_value })

/-! ## Reference notions taken from the specification -/

/-- The decision of the specification: force-sequential = (policy is sequential)
or (iterator category is input-only). -/
def force_sequential (policy : ExecutionPolicy) (cat : IteratorCategory) : Prop :=
  policy.held_policy = .sequential ∨ cat = .input_only

instance (policy : ExecutionPolicy) (cat : IteratorCategory) :
    Decidable (force_sequential policy cat) :=
  inferInstanceAs (Decidable (policy.held_policy = .sequential ∨ cat = .input_only))

/-- A call ran the sequential loop on the calling thread. -/
def Work.is_sequential_loop (wk : Work) : Prop :=
  ∃ t, wk = .sequential_loop t

instance (wk : Work) : Decidable wk.is_sequential_loop :=
  match wk with
  | .idle => isFalse (fun h => h.elim (fun _ ht => Work.noConfusion ht))
  | .sequential_loop t => isTrue ⟨t, rfl⟩
  | .partitioned _ => isFalse (fun h => h.elim (fun _ ht => Work.noConfusion ht))

end hpx.parallel

/-!
# hpx: exception_info

Shallow embedding of `hpx/exception_info.hpp`.

The nodes of the context chains live in a free store: a node is addressed by
the index at which it was allocated, a pointer is an optional address (`none` is
the null pointer).  A fact is keyed by its tag and by the code of its value
type; the values of all facts are taken from one type `V`.
-/

namespace hpx

/-! ## Data model of the context store -/

/-- A tagged value `error_info<Tag, Type>`: its static `tag` and `type` and the
member `_value`. -/
structure error_info (Tag Ty V : Type) where
  tag : Tag
  type : Ty
  _value : V
  deriving DecidableEq, Repr

/-- An object of class `detail::exception_info_node<Ts...>`: one base
`exception_info_node_data<Ts::tag, Ts::type>` with its `data` for each of the
`Ts`, in declaration order, and the member `next` of the base
`exception_info_node_base`. -/
structure detail.exception_info_node (Tag Ty V : Type) where
  data : List (error_info Tag Ty V)
  next : Option Nat
  deriving DecidableEq, Repr

/-- The free store: the nodes allocated so far, the node at index `a` being the
one with address `a`. -/
abbrev Store (Tag Ty V : Type) := List (detail.exception_info_node Tag Ty V)

/-- An object of class `exception_info`: its member `_data`, the owning pointer
to the head node of its chain. -/
structure exception_info where
  _data : Option Nat
  deriving DecidableEq, Repr

/-- The chain of nodes seen from a pointer: following the `next` members from
`p` passes through exactly the nodes `nodes`, in this order, and arrives at the
pointer `q`. -/
def Store.is_seg {Tag Ty V : Type} (st : Store Tag Ty V) :
    Option Nat → List (detail.exception_info_node Tag Ty V) → Option Nat → Prop
  | p, [], q => p = q
  | none, _ :: _, _ => False
  | some a, node :: rest, q => st[a]? = some node ∧ Store.is_seg st node.next rest q

instance Store.is_seg_decidable {Tag Ty V : Type} [DecidableEq Tag] [DecidableEq Ty]
    [DecidableEq V] (st : Store Tag Ty V) :
    (p : Option Nat) → (nodes : List (detail.exception_info_node Tag Ty V)) →
      (q : Option Nat) → Decidable (st.is_seg p nodes q)
  | p, [], q => by
    cases p <;> (unfold Store.is_seg; infer_instance)
  | none, _ :: _, _ => by
    unfold Store.is_seg; infer_instance
  | some a, node :: rest, q => by
    unfold Store.is_seg
    have := Store.is_seg_decidable st node.next rest q
    infer_instance

/-- The whole chain seen from a pointer: the segment that ends at the null
pointer. -/
def Store.is_chain {Tag Ty V : Type} (st : Store Tag Ty V) (p : Option Nat)
    (nodes : List (detail.exception_info_node Tag Ty V)) : Prop :=
  st.is_seg p nodes none

instance Store.is_chain_decidable {Tag Ty V : Type} [DecidableEq Tag] [DecidableEq Ty]
    [DecidableEq V] (st : Store Tag Ty V) (p : Option Nat)
    (nodes : List (detail.exception_info_node Tag Ty V)) : Decidable (st.is_chain p nodes) :=
  Store.is_seg_decidable st p nodes none

/-! ## The context store (`exception_info.hpp`, lines 25-157) -/

/-- The cast `dynamic_cast<const detail::exception_info_node_data<Tag, Type>*>
(node_base)` of `error_info::lookup`, followed by the access to `data`: it
succeeds exactly when the node has the base for this tag and type. -/
def detail.exception_info_node.node_data {Tag Ty V : Type} [DecidableEq Tag] [DecidableEq Ty]
    (node : detail.exception_info_node Tag Ty V) (tag : Tag) (type : Ty) : Option V :=
  match node.data.find? (fun d => decide (d.tag = tag ∧ d.type = type)) with
  | some d => some d._value
  | none => none

/-- The static member `error_info<Tag, Type>::lookup(node_base)` for a non-null
`node_base`: the value of the node when the cast succeeds, otherwise the lookup
in `node_base->next` when that pointer is not null, otherwise `nullptr`.  The
recursion is bounded by `fuel` visited nodes; the outer `none` means that the
fuel ran out or that an address outside the store was followed, `some none` is
the returned `nullptr`. -/
def error_info.lookup {Tag Ty V : Type} [DecidableEq Tag] [DecidableEq Ty] (fuel : Nat)
    (st : Store Tag Ty V) (tag : Tag) (type : Ty) (node_base : Nat) : Option (Option V) :=
  match fuel with
  | 0 => none
  | k + 1 =>
    match st[node_base]? with
    | none => none
    | some node =>
      match node.node_data tag type with
      | some v => some (some v)
      | none =>
        match node.next with
        | some n => error_info.lookup k st tag type n
        | none => some none

/-- The default constructor `exception_info() noexcept`: `_data(nullptr)`. -/
def exception_info.new : exception_info :=
  { _data := none }

/-- The move constructor `exception_info(exception_info&& other)`, defaulted:
the new object takes over the pointer, `other` is left with the null pointer.
The result is the new object and `other` after the move. -/
def exception_info.move_construct (other : exception_info) : exception_info × exception_info :=
  ({ _data := other._data }, { _data := none })

/-- The move assignment `operator=(exception_info&& other)`, defaulted, for two
distinct objects: the target takes over the pointer of `other` and gives up its
own, `other` is left with the null pointer.  The result is the target and
`other` after the assignment. -/
def exception_info.move_assign (_self other : exception_info) : exception_info × exception_info :=
  ({ _data := other._data }, { _data := none })

/-- The member `exception_info::set(tagged_values...)`: a new node holding the
values is allocated, its `next` takes over `_data`, and `_data` becomes the new
node; the object itself is returned.  The result is the store and the object
after the call. -/
def exception_info.set {Tag Ty V : Type} (st : Store Tag Ty V) (self : exception_info)
    (tagged_values : List (error_info Tag Ty V)) : Store Tag Ty V × exception_info :=
  (st ++ [{ data := tagged_values, next := self._data }], { _data := some st.length })

/-- The member `exception_info::get<Tag>()`:
`data ? Tag::lookup(data) : nullptr`. -/
def exception_info.get {Tag Ty V : Type} [DecidableEq Tag] [DecidableEq Ty] (fuel : Nat)
    (st : Store Tag Ty V) (self : exception_info) (tag : Tag) (type : Ty) :
    Option (Option V) :=
  match self._data with
  | some data => error_info.lookup fuel st tag type data
  | none => some none

/-! ## Decoration and recovery (`exception_info.hpp`, lines 159-227) -/

/-- An exception object as the handlers see it: its part of the thrown type `E`,
and its base subobject of class `exception_info` when its dynamic type derives
from `exception_info`. -/
structure ExceptionObject (E : Type) where
  e : E
  info : Option exception_info
  deriving DecidableEq, Repr

/-- How a call ends: it returns a value or an exception leaves it. -/
inductive Completion (X R : Type) where
  | returned (r : R)
  | raised (x : X)
  deriving DecidableEq, Repr

/-- The constructor of `detail::exception_with_info<E>`: the base `E` is built
from `e`, the base `exception_info` is move-constructed from `xi`. -/
def detail.exception_with_info {E : Type} (e : E) (xi : exception_info) : ExceptionObject E :=
  { e := e, info := some (exception_info.move_construct xi).1 }

/-- The function `throw_with_info(e, xi)`: the `throw` of a
`detail::exception_with_info<ED>` built from `e` and `std::move(xi)`.  The
result is how the call ends and the caller's `xi` after it. -/
def throw_with_info {E R : Type} (e : E) (xi : exception_info) :
    Completion (ExceptionObject E) R × exception_info :=
  (.raised (detail.exception_with_info e xi), (exception_info.move_construct xi).2)

/-- The record of a recovery: the arguments the continuation was invoked with,
in order, and how the call of `invoke_with_exception_info` ended. -/
structure Recovery (X R : Type) where
  calls : List (Option exception_info)
  outcome : Completion X R
  deriving DecidableEq, Repr

/-- The overload `invoke_with_exception_info(E const& e, F&& f)`: `f` applied to
`dynamic_cast<exception_info const*>(std::addressof(e))`. -/
def invoke_with_exception_info_ref {E X R : Type} (e : ExceptionObject E)
    (f : Option exception_info → Completion X R) : Recovery X R :=
  { calls := [e.info], outcome := f e.info }

/-- The overload `invoke_with_exception_info(std::exception_ptr const& p,
F&& f)`: a non-null `p` is rethrown inside a `try`; the handler for
`exception_info const&` returns `f(&xi)`, the catch-all handler swallows every
other exception, and after the `try` the function returns `f(nullptr)`. -/
def invoke_with_exception_info_ptr {E X R : Type} (p : Option (ExceptionObject E))
    (f : Option exception_info → Completion X R) : Recovery X R :=
  match p with
  | some obj =>
    match obj.info with
    | some xi => { calls := [some xi], outcome := f (some xi) }
    | none => { calls := [none], outcome := f none }
  | none => { calls := [none], outcome := f none }

/-- The overload `invoke_with_exception_info(hpx::error_code const& ec,
F&& f)`: the overload for `std::exception_ptr` on
`detail::access_exception(ec)`.  The function `detail::access_exception` is not
part of this header; it is the parameter `access_exception`, which yields the
captured exception associated with an error code, if any. -/
def invoke_with_exception_info_ec {EC E X R : Type}
    (access_exception : EC → Option (ExceptionObject E)) (ec : EC)
    (f : Option exception_info → Completion X R) : Recovery X R :=
  invoke_with_exception_info_ptr (access_exception ec) f

/-! ## Reference notions taken from the specification -/

/-- The scan of the specification: the nodes are scanned from the head (most
recently set) to the tail, and the value of the first node that holds a fact
with exactly the requested (tag, type) pair is returned. -/
def scan_front_to_back {Tag Ty V : Type} [DecidableEq Tag] [DecidableEq Ty]
    (nodes : List (detail.exception_info_node Tag Ty V)) (tag : Tag) (type : Ty) : Option V :=
  match nodes with
  | [] => none
  | node :: rest =>
    match node.data.filter (fun d => decide (d.tag = tag) && decide (d.type = type)) with
    | d :: _ => some d._value
    | [] => scan_front_to_back rest tag type

/-! ## Programs over several objects -/

/-- The addresses of the chain seen from a pointer: following the `next` members
from `p` passes through exactly the nodes at the addresses `path`, in this
order, and arrives at the null pointer. -/
def Store.is_path {Tag Ty V : Type} (st : Store Tag Ty V) : Option Nat → List Nat → Prop
  | p, [] => p = none
  | none, _ :: _ => False
  | some a, b :: rest =>
    a = b ∧
      match st[a]? with
      | some node => Store.is_path st node.next rest
      | none => False

instance Store.is_path_decidable {Tag Ty V : Type} (st : Store Tag Ty V) :
    (p : Option Nat) → (path : List Nat) → Decidable (st.is_path p path)
  | p, [] => by
    cases p <;> (unfold Store.is_path; infer_instance)
  | none, _ :: _ => by
    unfold Store.is_path; infer_instance
  | some a, b :: rest => by
    unfold Store.is_path
    cases h : st[a]? with
    | none => exact inferInstanceAs (Decidable (a = b ∧ False))
    | some node =>
      have := Store.is_path_decidable st node.next rest
      exact inferInstanceAs (Decidable (a = b ∧ st.is_path node.next rest))

/-- The state of a program that works on objects of class `exception_info`: the
free store and the objects, each named by the number of its variable.  A
variable that was not used yet holds a default-constructed object. -/
structure Objects (Tag Ty V : Type) where
  store : Store Tag Ty V
  objs : Nat → exception_info

/-- The operations the class `exception_info` offers for changing an object:
the default constructor, the move constructor, the move assignment and `set`.
Copy construction and copy assignment are not among them: both are deleted,
the class declaring its move operations and holding a `std::unique_ptr`. -/
inductive Operation (Tag Ty V : Type) where
  | construct (x : Nat)
  | move_construct (x other : Nat)
  | move_assign (self other : Nat)
  | set (self : Nat) (tagged_values : List (error_info Tag Ty V))

/-- One statement of a program: `exception_info x;`,
`exception_info x(std::move(other));`, `self = std::move(other);` or
`self.set(tagged_values...);`, each carried out by the member it names.  The
two declarations give the variable `x` a new object (an object it named before
has been destroyed); a move of an object onto itself leaves the state as it
is.  The member `get` is `const` and changes nothing. -/
def Objects.step {Tag Ty V : Type} (s : Objects Tag Ty V) :
    Operation Tag Ty V → Objects Tag Ty V
  | .construct x => { store := s.store, objs := Function.update s.objs x exception_info.new }
  | .move_construct x other =>
    if x = other then s
    else
      { store := s.store
        objs := Function.update
          (Function.update s.objs other (exception_info.move_construct (s.objs other)).2)
          x (exception_info.move_construct (s.objs other)).1 }
  | .move_assign self other =>
    if self = other then s
    else
      { store := s.store
        objs := Function.update
          (Function.update s.objs other
            (exception_info.move_assign (s.objs self) (s.objs other)).2)
          self (exception_info.move_assign (s.objs self) (s.objs other)).1 }
  | .set self tagged_values =>
    { store := (exception_info.set s.store (s.objs self) tagged_values).1
      objs := Function.update s.objs self
        (exception_info.set s.store (s.objs self) tagged_values).2 }

/-- The state before the first statement: an empty store. -/
def Objects.init {Tag Ty V : Type} : Objects Tag Ty V :=
  { store := [], objs := fun _ => exception_info.new }

/-- The state after the statements `ops`, carried out in order. -/
def Objects.run {Tag Ty V : Type} (ops : List (Operation Tag Ty V)) : Objects Tag Ty V :=
  ops.foldl Objects.step Objects.init

/-- The object of the variable `x` reaches the node at the address `a`: the
node is on the chain seen from its `_data`. -/
def Objects.reaches {Tag Ty V : Type} (s : Objects Tag Ty V) (x a : Nat) : Prop :=
  ∃ path, s.store.is_path (s.objs x)._data path ∧ a ∈ path

/-- Every object has a chain, and the chains of two distinct objects have no
node in common. -/
def Objects.exclusive {Tag Ty V : Type} (s : Objects Tag Ty V) : Prop :=
  (∀ x, ∃ path, s.store.is_path (s.objs x)._data path) ∧
  ∀ x y a, x ≠ y → s.reaches x a → ¬ s.reaches y a

/-! ## Sample stores and programs -/

/-- The store and the object after `exception_info().set(A{1})`, the tag `A`
being 0 and its value type having the code 0. -/
def sample.A1 : Store Nat Nat Nat × exception_info :=
  exception_info.set [] exception_info.new [{ tag := 0, type := 0, _value := 1 }]

/-- The store and the object after `exception_info().set(A{1}).set(B{2})`, the
tag `B` being 1. -/
def sample.A1B2 : Store Nat Nat Nat × exception_info :=
  exception_info.set sample.A1.1 sample.A1.2 [{ tag := 1, type := 0, _value := 2 }]

/-- A store with a chain of three nodes, the head first: a value of the type
with code 0 under the tag 1, a value of the type with code 1 under the tag 0,
and the value 1 of the type with code 0 under the tag 0. -/
def sample.skips : Store Nat Nat Nat × exception_info :=
  exception_info.set
    (exception_info.set sample.A1.1 sample.A1.2 [{ tag := 0, type := 1, _value := 6 }]).1
    (exception_info.set sample.A1.1 sample.A1.2 [{ tag := 0, type := 1, _value := 6 }]).2
    [{ tag := 1, type := 0, _value := 5 }]

/-- The program `x0.set(A{1}); exception_info x1(std::move(x0)); x0.set(B{2});
x1.set(C{3});`, the tags `A`, `B`, `C` being 0, 1, 2 and the value type having
the code 0: the one way to let a second object continue the chain of a first
one. -/
def sample.handed_over : List (Operation Nat Nat Nat) :=
  [.set 0 [{ tag := 0, type := 0, _value := 1 }], .move_construct 1 0,
    .set 0 [{ tag := 1, type := 0, _value := 2 }],
    .set 1 [{ tag := 2, type := 0, _value := 3 }]]

/-- The program `x0.set(A{1}); x1.set(A{1});`: two objects that are given the
same fact, each in a node of its own. -/
def sample.same_history : List (Operation Nat Nat Nat) :=
  [.set 0 [{ tag := 0, type := 0, _value := 1 }],
    .set 1 [{ tag := 0, type := 0, _value := 1 }]]

end hpx

/-!
# hpx: lightweight_test

Shallow embedding of the assertion harness of `hpx/util/lightweight_test.hpp`.
An output stream is modelled by the lines written to it.
-/

namespace hpx.util

/-- The enumeration `counter_type`. -/
inductive counter_type where
  | counter_sanity
  | counter_test
  deriving DecidableEq, Repr

/-- The data members of `detail::fixture`: the lines written to `stream_` and
the two failure counters (the spinlock guards the writes and has no value of its
own). -/
structure detail.fixture where
  stream_ : List String
  sanity_failures_ : Nat
  test_failures_ : Nat
  deriving DecidableEq, Repr

/-- The constructor `fixture(std::ostream& stream)`: both counters start at 0. -/
def detail.fixture.new (stream : List String) : detail.fixture :=
  { stream_ := stream, sanity_failures_ := 0, test_failures_ := 0 }

/-- Modelled from the spec: `fixture::increment(counter_type c)`, declared in
the header and defined outside it: the harness counts failures, so the counter
selected by `c` grows by one and the other one is left alone. -/
def detail.fixture.increment (self : detail.fixture) (c : counter_type) : detail.fixture :=
  match c with
  | .counter_sanity => { self with sanity_failures_ := self.sanity_failures_ + 1 }
  | .counter_test => { self with test_failures_ := self.test_failures_ + 1 }

/-- Modelled from the spec: `fixture::get(counter_type c) const`, declared in
the header and defined outside it: the value of the counter selected by `c`. -/
def detail.fixture.get (self : detail.fixture) (c : counter_type) : Nat :=
  match c with
  | .counter_sanity => self.sanity_failures_
  | .counter_test => self.test_failures_

/-- The text `file(line): msg failed in function 'function'` that starts every
failure line. -/
def detail.failure_text (file : String) (line : Int) (function : String) (msg : String) :
    String :=
  file ++ "(" ++ toString line ++ "): " ++ msg ++ " failed in function \x27" ++ function
    ++ "\x27"

/-- The tail `: 't' rel 'u'` of a failure line of the comparing checks. -/
def detail.operands_text {α : Type} [ToString α] (t : α) (rel : String) (u : α) : String :=
  ": \x27" ++ toString t ++ "\x27 " ++ rel ++ " \x27" ++ toString u ++ "\x27"

/-- The member `fixture::check_(file, line, function, c, t, msg)`; `t` is the
truth value of the tested expression.  The result is the fixture after the call
and the returned `bool`. -/
def detail.fixture.check_ (self : detail.fixture) (file : String) (line : Int)
    (function : String) (c : counter_type) (t : Bool) (msg : String) : detail.fixture × Bool :=
  if !t then
    (({ self with stream_ := self.stream_ ++ [detail.failure_text file line function msg] } :
        detail.fixture).increment c, false)
  else (self, true)

/-- The member `fixture::check_equal`, testing `t == u`. -/
def detail.fixture.check_equal {α : Type} [DecidableEq α] [ToString α] (self : detail.fixture)
    (file : String) (line : Int) (function : String) (c : counter_type) (t u : α)
    (msg : String) : detail.fixture × Bool :=
  if !(decide (t = u)) then
    (({ self with
          stream_ := self.stream_ ++
            [detail.failure_text file line function msg ++ detail.operands_text t "!=" u] } :
        detail.fixture).increment c, false)
  else (self, true)

/-- The member `fixture::check_not_equal`, testing `t != u`; its failure line
shows the same `!=` between the operands as that of `check_equal`. -/
def detail.fixture.check_not_equal {α : Type} [DecidableEq α] [ToString α]
    (self : detail.fixture) (file : String) (line : Int) (function : String)
    (c : counter_type) (t u : α) (msg : String) : detail.fixture × Bool :=
  if !(decide (t ≠ u)) then
    (({ self with
          stream_ := self.stream_ ++
            [detail.failure_text file line function msg ++ detail.operands_text t "!=" u] } :
        detail.fixture).increment c, false)
  else (self, true)

/-- The member `fixture::check_less`, testing `t < u`. -/
def detail.fixture.check_less {α : Type} [LT α] [DecidableRel ((· < ·) : α → α → Prop)]
    [ToString α] (self : detail.fixture) (file : String) (line : Int) (function : String)
    (c : counter_type) (t u : α) (msg : String) : detail.fixture × Bool :=
  if !(decide (t < u)) then
    (({ self with
          stream_ := self.stream_ ++
            [detail.failure_text file line function msg ++ detail.operands_text t ">=" u] } :
        detail.fixture).increment c, false)
  else (self, true)

/-- The member `fixture::check_less_equal`, testing `t <= u`. -/
def detail.fixture.check_less_equal {α : Type} [LE α]
    [DecidableRel ((· ≤ ·) : α → α → Prop)] [ToString α] (self : detail.fixture)
    (file : String) (line : Int) (function : String) (c : counter_type) (t u : α)
    (msg : String) : detail.fixture × Bool :=
  if !(decide (t ≤ u)) then
    (({ self with
          stream_ := self.stream_ ++
            [detail.failure_text file line function msg ++ detail.operands_text t ">" u] } :
        detail.fixture).increment c, false)
  else (self, true)

/-- The member `fixture::check_range`, testing `t >= u && t <= v`; the failure
line names the bound that is violated, the lower one first. -/
def detail.fixture.check_range {α : Type} [LE α] [DecidableRel ((· ≤ ·) : α → α → Prop)]
    [ToString α] (self : detail.fixture) (file : String) (line : Int) (function : String)
    (c : counter_type) (t u v : α) (msg : String) : detail.fixture × Bool :=
  if !(decide (t ≥ u) && decide (t ≤ v)) then
    (({ self with
          stream_ := self.stream_ ++
            [if !(decide (t ≥ u)) then
                detail.failure_text file line function msg ++ detail.operands_text t "<" u
              else
                detail.failure_text file line function msg ++ detail.operands_text t ">" v] } :
        detail.fixture).increment c, false)
  else (self, true)

/-- The function `report_errors(stream)`, reading the two counters of
`detail::global_fixture`.  The result is the global fixture after the call, the
lines of `stream` after the call and the returned `int`. -/
def report_errors (global_fixture : detail.fixture) (stream : List String) :
    detail.fixture × List String × Int :=
  let sanity := global_fixture.get .counter_sanity
  let test := global_fixture.get .counter_test
  if sanity = 0 ∧ test = 0 then (global_fixture, stream, 0)
  else
    (global_fixture,
      stream ++
        [toString sanity ++ " sanity check" ++ (if sanity = 1 then " and " else "s and ")
          ++ toString test ++ " test" ++ (if test = 1 then " failed." else "s failed.")],
      1)

/-- The contract of one check on the condition `cond`, `r` being the fixture
after the call and the returned `bool`: the check returns true exactly when the
condition holds; then nothing is written and no counter changes; when the
condition fails it returns false, one line is written, the counter selected by
`c` has grown by one and the other counter is unchanged. -/
def detail.check_contract (self : detail.fixture) (c : counter_type) (cond : Prop)
    (r : detail.fixture × Bool) : Prop :=
  (r.2 = true ↔ cond) ∧
  (cond → r = (self, true)) ∧
  (¬ cond →
    r.2 = false ∧ (∃ line, r.1.stream_ = self.stream_ ++ [line]) ∧
    r.1.get c = self.get c + 1 ∧ ∀ c', c' ≠ c → r.1.get c' = self.get c')

end hpx.util

namespace hpx.parallel

/-! ## Lemmas on the loops -/

theorem to_size_t_of_nat (w n : Nat) (h : n < 2 ^ w) : to_size_t w (n : Int) = n := by
  unfold to_size_t
  have h2 : ((n : Int)) < (2 : Int) ^ w := by exact_mod_cast h
  rw [Int.emod_eq_of_lt (Int.ofNat_nonneg n) h2]
  simp

theorem is_negative_of_nat (n : Nat) : detail.is_negative (n : Int) = false := by
  simp [detail.is_negative]

theorem loop_n_clean {ε : Type} (f : Nat → Option ε) :
    ∀ (count it : Nat), (∀ i, i < count → f (it + i) = none) →
      util.loop_n it count f = ⟨List.range' it count, .done (it + count)⟩ := by
  intro count
  induction count with
  | zero => intro it _; simp [util.loop_n]
  | succ c ih =>
    intro it h
    have h0 : f it = none := by simpa using h 0 (Nat.succ_pos c)
    have hrest : ∀ i, i < c → f (it + 1 + i) = none := by
      intro i hi
      have := h (i + 1) (Nat.succ_lt_succ hi)
      rwa [show it + (i + 1) = it + 1 + i by omega] at this
    simp only [util.loop_n, h0, ih (it + 1) hrest, List.range'_succ]
    congr 2
    omega

theorem loop_n_fault {ε : Type} (f : Nat → Option ε) (e : ε) :
    ∀ (k count it : Nat), k < count → (∀ j, j < k → f (it + j) = none) →
      f (it + k) = some e →
      util.loop_n it count f = ⟨List.range' it (k + 1), .threw e⟩ := by
  intro k
  induction k with
  | zero =>
    intro count it hk _ hf
    obtain ⟨c, rfl⟩ : ∃ c, count = c + 1 := ⟨count - 1, by omega⟩
    have h0 : f it = some e := by simpa using hf
    simp [util.loop_n, h0]
  | succ k ih =>
    intro count it hk hclean hf
    obtain ⟨c, rfl⟩ : ∃ c, count = c + 1 := ⟨count - 1, by omega⟩
    have h0 : f it = none := by simpa using hclean 0 (Nat.succ_pos k)
    have hrest : ∀ j, j < k → f (it + 1 + j) = none := by
      intro j hj
      have := hclean (j + 1) (Nat.succ_lt_succ hj)
      rwa [show it + (j + 1) = it + 1 + j by omega] at this
    have hf2 : f (it + 1 + k) = some e := by
      rwa [show it + (k + 1) = it + 1 + k by omega] at hf
    have := ih c (it + 1) (by omega) hrest hf2
    simp only [util.loop_n, h0, this]
    rw [List.range'_succ it (k + 1)]

theorem loop_n_done {ε : Type} (f : Nat → Option ε) :
    ∀ (count it v : Nat), (util.loop_n it count f).result = .done v → v = it + count := by
  intro count
  induction count with
  | zero => intro it v h; simp [util.loop_n] at h; omega
  | succ c ih =>
    intro it v h
    unfold util.loop_n at h
    cases hf : f it with
    | some e => simp [hf] at h
    | none =>
      simp only [hf] at h
      have := ih (it + 1) v h
      omega

theorem for_each_n_seq_clean {ε : Type} (p : ConcretePolicy) (first count : Nat)
    (f : Nat → Option ε) (hf : ∀ i, i < count → f (first + i) = none) :
    detail.for_each_n_seq p first count f =
      { work := .sequential_loop (List.range' first count)
        outcome := .returned (detail.algorithm_result.get (.typed p) (first + count)) } := by
  simp [detail.for_each_n_seq, loop_n_clean f count first hf]

theorem for_each_n_seq_fault {ε : Type} (p : ConcretePolicy) (first count k : Nat)
    (f : Nat → Option ε) (e : ε) (hk : k < count)
    (hclean : ∀ j, j < k → f (first + j) = none) (hf : f (first + k) = some e) :
    detail.for_each_n_seq p first count f =
      { work := .sequential_loop (List.range' first (k + 1))
        outcome :=
          match detail.handle_exception.call p e with
          | .rethrown flt => .raised flt
          | .captured _ => .fell_through } := by
  simp [detail.for_each_n_seq, loop_n_fault f e k count first hk hclean hf]

theorem std_for_each_eq_loop_n {ε : Type} (f : Nat → Option ε) :
    ∀ (fuel first last : Nat), first ≤ last → last - first < fuel →
      std_for_each fuel first last f = some (util.loop_n first (last - first) f).forget := by
  intro fuel
  induction fuel with
  | zero => intro first last _ h; omega
  | succ k ih =>
    intro first last hle hfuel
    unfold std_for_each
    by_cases heq : first = last
    · subst heq
      simp [util.loop_n, Loop.forget]
    · obtain ⟨c, hc⟩ : ∃ c, last - first = c + 1 := ⟨last - first - 1, by omega⟩
      have hc2 : last - (first + 1) = c := by omega
      rw [if_neg heq, hc]
      unfold util.loop_n
      cases hf : f first with
      | some e => simp [Loop.forget]
      | none =>
        simp only [ih (first + 1) last (by omega) (by omega), hc2]
        simp [Loop.forget]

theorem for_each_seq_eq_for_each_n_seq {ε : Type} (fuel : Nat) (p : ConcretePolicy)
    (first last : Nat) (f : Nat → Option ε) (hle : first ≤ last) (hfuel : last - first < fuel) :
    detail.for_each_seq fuel p first last f =
      some
        { work := (detail.for_each_n_seq p first (last - first) f).work
          outcome := (detail.for_each_n_seq p first (last - first) f).outcome.discard_value } := by
  unfold detail.for_each_seq
  rw [std_for_each_eq_loop_n f fuel first last hle hfuel]
  simp only [detail.for_each_n_seq, Loop.forget]
  cases (util.loop_n first (last - first) f).result with
  | done v =>
    cases p <;> simp [Call.discard_value, AlgResult.discard_value, detail.algorithm_result.get]
  | threw e =>
    cases p <;> simp [Call.discard_value, detail.handle_exception.call]

theorem as_plain_discard_value {ε T : Type} (o : Call ε (AlgResult ε T)) :
    o.discard_value.as_plain = o.as_plain.discard_value := by
  rcases o with (v | h) | flt | _
  · rfl
  · cases h <;> rfl
  · rfl
  · rfl

theorem distance_of_le (first last : Nat) (h : first ≤ last) :
    distance first last = ((last - first : Nat) : Int) := by
  unfold distance
  omega

/-! ## Lemmas on the partitions -/

theorem run_partitions_length {ε : Type} (applyFn : Nat → Nat → Loop ε Unit) :
    ∀ (split : List Nat) (b : Nat), (util.run_partitions b split applyFn).length = split.length := by
  intro split
  induction split with
  | nil => intro b; simp [util.run_partitions]
  | cons n rest ih => intro b; simp [util.run_partitions, ih]

theorem run_partitions_clean {ε : Type} (f : Nat → Option ε) :
    ∀ (split : List Nat) (b : Nat), (∀ i, i < split.sum → f (b + i) = none) →
      ((util.run_partitions b split
          (fun part_begin part_count => (util.loop_n part_begin part_count f).forget)).map
        Loop.trace).flatten = List.range' b split.sum ∧
      (util.run_partitions b split
          (fun part_begin part_count => (util.loop_n part_begin part_count f).forget)).filterMap
        Loop.fault = [] := by
  intro split
  induction split with
  | nil => intro b _; simp [util.run_partitions]
  | cons n rest ih =>
    intro b h
    have hn : ∀ i, i < n → f (b + i) = none := by
      intro i hi
      exact h i (by simp only [List.sum_cons]; omega)
    have hrest : ∀ i, i < rest.sum → f (b + n + i) = none := by
      intro i hi
      have := h (n + i) (by simp only [List.sum_cons]; omega)
      rwa [show b + (n + i) = b + n + i by omega] at this
    obtain ⟨ih1, ih2⟩ := ih (b + n) hrest
    constructor
    · simp only [util.run_partitions, List.map_cons, List.flatten_cons, ih1, List.sum_cons]
      simp only [Loop.forget, loop_n_clean f n b hn, List.range'_append_1]
      rw [Nat.add_comm]
    · simp only [util.run_partitions, List.filterMap_cons, ih2]
      simp [Loop.forget, Loop.fault, loop_n_clean f n b hn]

theorem for_each_n_par_clean {ε : Type} (split : List Nat) (p : ConcretePolicy)
    (first count : Nat) (f : Nat → Option ε) (hpos : 0 < count)
    (hf : ∀ i, i < split.sum → f (first + i) = none) :
    ∃ traces : List (List Nat),
      detail.for_each_n_par split p first count f =
        { work := .partitioned traces
          outcome := .returned (detail.algorithm_result.get (.typed p) (first + count)) } ∧
      traces.length = split.length ∧ traces.flatten = List.range' first split.sum := by
  obtain ⟨h1, h2⟩ := run_partitions_clean f split first hf
  refine ⟨_, ?_, ?_, h1⟩
  · simp only [detail.for_each_n_par, hpos, if_true, util.partitioner.call, h2]
  · simp [run_partitions_length]

theorem count_range_one (first n x : Nat) :
    (List.range' first n).count x = if first ≤ x ∧ x < first + n then 1 else 0 := by
  by_cases h : first ≤ x ∧ x < first + n
  · rw [if_pos h]
    exact List.count_eq_one_of_mem (List.nodup_range' first n) (List.mem_range'_1.2 h)
  · rw [if_neg h]
    exact List.count_eq_zero_of_not_mem (fun hm => h (List.mem_range'_1.1 hm))

theorem for_each_n_sequential_is_direct_loop_aux {ε : Type} (w : Nat) (split : List Nat)
    (first n : Nat) (f : Nat → Option ε) (hfit : n < 2 ^ w)
    (hf : ∀ i, i < n → f (first + i) = none) :
    (for_each_n w split (.typed .sequential) .forward_or_better first (n : Int) f).work =
      .sequential_loop (List.range' first n) := by
  unfold for_each_n
  rw [is_negative_of_nat, to_size_t_of_nat w n hfit]
  simp [detail.for_each_n, is_seq, is_sequential_execution_policy,
    for_each_n_seq_clean _ first n f hf]

/-! ## Lemmas on the overloads -/

theorem for_each_n_seq_work {ε : Type} (p : ConcretePolicy) (first count : Nat)
    (f : Nat → Option ε) : (detail.for_each_n_seq p first count f).work.is_sequential_loop :=
  ⟨_, rfl⟩

theorem for_each_n_par_work {ε : Type} (split : List Nat) (p : ConcretePolicy)
    (first count : Nat) (f : Nat → Option ε) :
    ¬ (detail.for_each_n_par split p first count f).work.is_sequential_loop := by
  rintro ⟨t, ht⟩
  unfold detail.for_each_n_par at ht
  split at ht
  · simp [util.partitioner.call] at ht
  · simp at ht

theorem for_each_seq_work {ε : Type} (fuel : Nat) (p : ConcretePolicy) (first last : Nat)
    (f : Nat → Option ε) (r : Run ε (AlgResult ε Unit))
    (h : detail.for_each_seq fuel p first last f = some r) : r.work.is_sequential_loop := by
  unfold detail.for_each_seq at h
  cases hs : std_for_each fuel first last f with
  | none => simp [hs] at h
  | some l =>
    simp only [hs, Option.some.injEq] at h
    subst h
    exact ⟨_, rfl⟩

theorem for_each_n_seq_returned {ε : Type} (p : ConcretePolicy) (first count : Nat)
    (f : Nat → Option ε) (r : AlgResult ε Nat) (v : Nat)
    (h : (detail.for_each_n_seq p first count f).outcome = .returned r)
    (hv : r.resolve = .ready v) : v = first + count := by
  simp only [detail.for_each_n_seq] at h
  cases hl : (util.loop_n first count f).result with
  | done it =>
    have hit := loop_n_done f count first it hl
    rw [hl] at h
    simp only [Call.returned.injEq] at h
    subst h
    cases p <;> simp [detail.algorithm_result.get, AlgResult.resolve] at hv <;> omega
  | threw e =>
    rw [hl] at h
    cases p <;> simp [detail.handle_exception.call] at h

theorem for_each_n_par_returned {ε : Type} (split : List Nat) (p : ConcretePolicy)
    (first count : Nat) (f : Nat → Option ε) (r : AlgResult ε Nat) (v : Nat)
    (h : (detail.for_each_n_par split p first count f).outcome = .returned r)
    (hv : r.resolve = .ready v) : v = first + count := by
  unfold detail.for_each_n_par at h
  split at h
  · simp only [util.partitioner.call] at h
    split at h
    · simp only [Call.returned.injEq] at h
      subst h
      cases p <;> simp [detail.algorithm_result.get, AlgResult.resolve] at hv <;> omega
    · cases p <;> simp at h
      subst h
      simp [AlgResult.resolve] at hv
  · have h0 : count = 0 := by omega
    simp only [Call.returned.injEq] at h
    subst h
    cases p <;> simp [detail.algorithm_result.get, AlgResult.resolve] at hv <;> omega

theorem as_plain_returned {ε T : Type} (o : Call ε (AlgResult ε T)) (r : AlgResult ε T) (v : T)
    (h : o.as_plain = .returned r) (hv : r.resolve = .ready v) :
    ∃ r0, o = .returned r0 ∧ r0.resolve = .ready v := by
  rcases o with (v0 | h0) | flt | _
  · simp only [Call.as_plain, Call.returned.injEq] at h
    subst h
    exact ⟨_, rfl, hv⟩
  · cases h0 with
    | ready v0 =>
      simp only [Call.as_plain, Call.returned.injEq] at h
      subst h
      simp only [AlgResult.resolve, Handle.ready.injEq] at hv
      subst hv
      exact ⟨_, rfl, rfl⟩
    | failed flt => simp [Call.as_plain] at h
  · simp [Call.as_plain] at h
  · simp [Call.as_plain] at h

theorem for_each_n_par_all_clean {ε : Type} (split : List Nat) (p : ConcretePolicy)
    (first count : Nat) (f : Nat → Option ε) (hf : ∀ i, f i = none) :
    (detail.for_each_n_par split p first count f).outcome =
      .returned (detail.algorithm_result.get (.typed p) (first + count)) := by
  by_cases hpos : 0 < count
  · obtain ⟨traces, h1, _, _⟩ :=
      for_each_n_par_clean split p first count f hpos (fun i _ => hf (first + i))
    rw [h1]
  · have h0 : count = 0 := by omega
    subst h0
    simp [detail.for_each_n_par]

/-! ## Lemmas on the measured distance -/

theorem std_distance_fault {ε : Type} (last : Nat) (advance : Nat → Option ε) (e : ε) :
    ∀ (k fuel first : Nat), k < fuel → first + k < last →
      (∀ j, j < k → advance (first + j) = none) → advance (first + k) = some e →
      std_distance fuel first last advance = some (.threw e) := by
  intro k
  induction k with
  | zero =>
    intro fuel first hfuel hk _ hf
    obtain ⟨m, rfl⟩ : ∃ m, fuel = m + 1 := ⟨fuel - 1, by omega⟩
    have hne : first ≠ last := by omega
    simp only [Nat.add_zero] at hf
    simp [std_distance, hne, hf]
  | succ k ih =>
    intro fuel first hfuel hk hclean hf
    obtain ⟨m, rfl⟩ : ∃ m, fuel = m + 1 := ⟨fuel - 1, by omega⟩
    have hne : first ≠ last := by omega
    have h0 : advance first = none := by simpa using hclean 0 (by omega)
    have hrec := ih m (first + 1) (by omega) (by omega)
      (fun j hj => by
        have := hclean (j + 1) (by omega)
        rwa [show first + (j + 1) = first + 1 + j by omega] at this)
      (by rwa [show first + (k + 1) = first + 1 + k by omega] at hf)
    simp [std_distance, hne, h0, hrec]

theorem std_distance_clean {ε : Type} (advance : Nat → Option ε) :
    ∀ (n fuel first : Nat), n < fuel → (∀ j, j < n → advance (first + j) = none) →
      std_distance fuel first (first + n) advance = some (.done (n : Int)) := by
  intro n
  induction n with
  | zero =>
    intro fuel first hfuel _
    obtain ⟨m, rfl⟩ : ∃ m, fuel = m + 1 := ⟨fuel - 1, by omega⟩
    simp [std_distance]
  | succ n ih =>
    intro fuel first hfuel hclean
    obtain ⟨m, rfl⟩ : ∃ m, fuel = m + 1 := ⟨fuel - 1, by omega⟩
    have hne : first ≠ first + (n + 1) := by omega
    have h0 : advance first = none := by simpa using hclean 0 (by omega)
    have hrec := ih m (first + 1) (by omega)
      (fun j hj => by
        have := hclean (j + 1) (by omega)
        rwa [show first + (j + 1) = first + 1 + j by omega] at this)
    rw [show first + 1 + n = first + (n + 1) by omega] at hrec
    simp [std_distance, hne, h0, hrec]

theorem for_each_fwd_measured_clean {ε : Type} (fuel w : Nat) (split : List Nat)
    (p : ConcretePolicy) (first n : Nat) (advance f : Nat → Option ε) (hfuel : n < fuel)
    (hclean : ∀ j, j < n → advance (first + j) = none) :
    detail.for_each_fwd_measured fuel w split p first (first + n) advance f =
      some (.done (detail.for_each_fwd w split p first (first + n) f)) := by
  have hd : distance first (first + n) = (n : Int) := by
    unfold distance
    omega
  simp [detail.for_each_fwd_measured, std_distance_clean advance n fuel first hfuel hclean,
    detail.for_each_fwd, hd]

/-! ## Claims on for_each_n -/

/-- C1: on the sequential path (the policy is sequential or the iterators are
input-only), for every non-negative count that fits `std::size_t` and every `f`
that does not fault on the range, `for_each_n` applies `f` to the positions
`first, first + 1, ..., first + count - 1`, each once and in ascending order, on
the calling thread, and returns `first` advanced by `count` in the result form
of the policy: the trace and final iterator of a direct loop. -/
theorem for_each_n_sequential_is_direct_loop {ε : Type} (w : Nat) (split : List Nat)
    (policy : ExecutionPolicy) (cat : IteratorCategory) (first n : Nat) (f : Nat → Option ε)
    (hseq : force_sequential policy cat) (hfit : n < 2 ^ w)
    (hf : ∀ i, i < n → f (first + i) = none) :
    for_each_n w split policy cat first (n : Int) f =
      { work := .sequential_loop (List.range' first n)
        outcome := .returned (detail.algorithm_result.get policy (first + n)) } := by
  unfold for_each_n
  rw [is_negative_of_nat, to_size_t_of_nat w n hfit]
  rcases policy with p | p <;> rcases cat with _ | _ <;> rcases p with _ | _ | _ <;>
    first
    | (simp [detail.for_each_n, detail.for_each_n_dispatch, is_seq,
        is_sequential_execution_policy, for_each_n_seq_clean _ first n f hf,
        detail.algorithm_result.get, Call.as_plain]; done)
    | (exfalso; simp [force_sequential, ExecutionPolicy.held_policy] at hseq)

/-- Instance of C1: three elements from position 10 under the sequential policy. -/
theorem for_each_n_sequential_is_direct_loop_witness :
    force_sequential (.typed .sequential) .forward_or_better ∧ 3 < 2 ^ 64 ∧
    (∀ i, i < 3 → (fun _ => (none : Option Nat)) (10 + i) = none) ∧
    for_each_n 64 [1, 2] (.typed .sequential) .forward_or_better 10 ((3 : Nat) : Int)
        (fun _ => (none : Option Nat)) =
      { work := .sequential_loop [10, 11, 12]
        outcome := .returned (.direct 13) } :=
  ⟨Or.inl rfl, by decide, fun _ _ => rfl,
    for_each_n_sequential_is_direct_loop 64 [1, 2] (.typed .sequential) .forward_or_better
      10 3 (fun _ => none) (Or.inl rfl) (by decide) (fun _ _ => rfl)⟩

/-- C2: for every negative count, every execution policy and every iterator
category, `for_each_n` puts neither the sequential loop nor the partitioner to
work, applies `f` to nothing, and returns normally the result the policy builds
from the unchanged `first`, which stands for the value `first`. -/
theorem for_each_n_negative_count {ε : Type} (w : Nat) (split : List Nat)
    (policy : ExecutionPolicy) (cat : IteratorCategory) (first : Nat) (count : Int)
    (f : Nat → Option ε) (hneg : count < 0) :
    for_each_n w split policy cat first count f =
      { work := .idle
        outcome := .returned (detail.algorithm_result.get policy first) } ∧
    (for_each_n w split policy cat first count f).work.applications = [] ∧
    (detail.algorithm_result.get policy first : AlgResult ε Nat).resolve = .ready first := by
  have h : detail.is_negative count = true := by simp [detail.is_negative, hneg]
  refine ⟨by simp [for_each_n, h], by simp [for_each_n, h, Work.applications], ?_⟩
  rcases policy with p | p <;> rcases p with _ | _ | _ <;>
    simp [detail.algorithm_result.get, AlgResult.resolve]

/-- Instance of C2: count -5 under the deferred policy, with an `f` that would
fault on every element. -/
theorem for_each_n_negative_count_witness :
    (-5 : Int) < 0 ∧
    for_each_n 64 [2, 3] (.typed .task) .forward_or_better 10 (-5) (fun _ => some 7) =
      { work := .idle
        outcome := .returned (.deferred (.ready 10)) } :=
  ⟨by decide,
    (for_each_n_negative_count 64 [2, 3] (.typed .task) .forward_or_better 10 (-5)
      (fun _ => some 7) (by decide)).1⟩

/-- C4: on the sequential path under a synchronous policy, when `f` faults at
element `k < count` and at no earlier element, `for_each_n` applies `f` to the
positions `first, ..., first + k` and to nothing else, each once and in order
(element `k` being the faulting attempt), and the call ends with the fault,
normalised by the exception bridge, raised on the calling thread instead of
returning an iterator. -/
theorem for_each_n_sequential_first_fault {ε : Type} (w : Nat) (split : List Nat)
    (policy : ExecutionPolicy) (cat : IteratorCategory) (first n k : Nat)
    (f : Nat → Option ε) (e : ε)
    (hseq : force_sequential policy cat) (hsync : policy ≠ .typed .task)
    (hfit : n < 2 ^ w) (hk : k < n)
    (hclean : ∀ j, j < k → f (first + j) = none) (hf : f (first + k) = some e) :
    for_each_n w split policy cat first (n : Int) f =
      { work := .sequential_loop (List.range' first (k + 1))
        outcome := .raised (.normalized e) } := by
  unfold for_each_n
  rw [is_negative_of_nat, to_size_t_of_nat w n hfit]
  rcases policy with p | p <;> rcases cat with _ | _ <;> rcases p with _ | _ | _ <;>
    first
    | exact absurd rfl hsync
    | (simp [detail.for_each_n, detail.for_each_n_dispatch, is_seq,
        is_sequential_execution_policy, for_each_n_seq_fault _ first n k f e hk hclean hf,
        detail.handle_exception.call, Call.as_plain]; done)
    | (exfalso; simp [force_sequential, ExecutionPolicy.held_policy] at hseq)

/-- Instance of C4: five elements from position 10, `f` faulting at element 2,
under the parallel policy over input-only iterators. -/
theorem for_each_n_sequential_first_fault_witness :
    force_sequential (.typed .parallel) .input_only ∧
    ExecutionPolicy.typed .parallel ≠ .typed .task ∧ 5 < 2 ^ 64 ∧ 2 < 5 ∧
    (∀ j, j < 2 → (fun i => if i = 12 then some 7 else none) (10 + j) = none) ∧
    (fun i => if i = 12 then some 7 else none) (10 + 2) = some 7 ∧
    for_each_n 64 [2, 3] (.typed .parallel) .input_only 10 ((5 : Nat) : Int)
        (fun i => if i = 12 then some 7 else none) =
      { work := .sequential_loop [10, 11, 12]
        outcome := .raised (.normalized 7) } :=
  ⟨Or.inr rfl, by decide, by decide, by decide, by intro j hj; simp; omega, by simp,
    for_each_n_sequential_first_fault 64 [2, 3] (.typed .parallel) .input_only 10 5 2
      (fun i => if i = 12 then some 7 else none) 7 (Or.inr rfl) (by decide) (by decide)
      (by decide) (by intro j hj; simp; omega) (by simp)⟩

/-- C3: on the parallel path (forward-or-better iterators, a policy that is not
sequential), for `N > 0` elements, an `f` that does not fault on them, and every
split of the range into contiguous sub-ranges that cover it exactly once (sizes
summing to `N`), `for_each_n` hands the work to the partitioner, one trace per
sub-range, applies `f` to each of the `N` positions exactly once and to nothing
else, and the multiset of its applications is that of the sequential path,
whatever the number of partitions. -/
theorem for_each_n_parallel_each_element_once {ε : Type} (w : Nat) (split : List Nat)
    (policy : ExecutionPolicy) (first N : Nat) (f : Nat → Option ε)
    (hpar : ¬ force_sequential policy .forward_or_better)
    (hpos : 0 < N) (hfit : N < 2 ^ w) (hcover : split.sum = N)
    (hf : ∀ i, i < N → f (first + i) = none) :
    (∃ traces : List (List Nat),
      (for_each_n w split policy .forward_or_better first (N : Int) f).work =
        .partitioned traces ∧ traces.length = split.length) ∧
    (∀ x, (for_each_n w split policy .forward_or_better first (N : Int) f).work.applications.count x
        = if first ≤ x ∧ x < first + N then 1 else 0) ∧
    ((for_each_n w split policy .forward_or_better first (N : Int) f).work.applications :
        Multiset Nat) =
      ((for_each_n w split (.typed .sequential) .forward_or_better first (N : Int) f).work.applications :
        Multiset Nat) := by
  have hseq := for_each_n_sequential_is_direct_loop_aux w split first N f hfit hf
  subst hcover
  have key : ∀ p : ConcretePolicy, ∃ traces : List (List Nat),
      (detail.for_each_n_par split p first split.sum f).work = .partitioned traces ∧
      traces.length = split.length ∧ traces.flatten = List.range' first split.sum := by
    intro p
    obtain ⟨traces, h1, h2, h3⟩ := for_each_n_par_clean split p first split.sum f hpos hf
    exact ⟨traces, by rw [h1], h2, h3⟩
  have hwork : ∃ traces : List (List Nat),
      (for_each_n w split policy .forward_or_better first (split.sum : Int) f).work =
        .partitioned traces ∧
      traces.length = split.length ∧ traces.flatten = List.range' first split.sum := by
    unfold for_each_n
    rw [is_negative_of_nat, to_size_t_of_nat w _ hfit]
    rcases policy with p | p <;> rcases p with _ | _ | _ <;>
      first
      | (exfalso; exact hpar (Or.inl rfl))
      | (simpa [detail.for_each_n, detail.for_each_n_dispatch, is_seq,
          is_sequential_execution_policy] using key _)
  obtain ⟨traces, h1, h2, h3⟩ := hwork
  refine ⟨⟨traces, h1, h2⟩, ?_, ?_⟩
  · intro x
    rw [h1]
    simp only [Work.applications, h3]
    exact count_range_one first split.sum x
  · rw [h1, hseq]
    simp only [Work.applications, h3]

/-- Instance of C3: five elements from position 10 under the parallel policy,
split into partitions of two and three. -/
theorem for_each_n_parallel_each_element_once_witness :
    ¬ force_sequential (.typed .parallel) .forward_or_better ∧ 0 < 5 ∧ 5 < 2 ^ 64 ∧
    [2, 3].sum = 5 ∧
    (∀ i, i < 5 → (fun _ => (none : Option Nat)) (10 + i) = none) ∧
    (∃ traces : List (List Nat),
      (for_each_n 64 [2, 3] (.typed .parallel) .forward_or_better 10 ((5 : Nat) : Int)
          (fun _ => (none : Option Nat))).work = .partitioned traces ∧
        traces.length = [2, 3].length) ∧
    (∀ x, (for_each_n 64 [2, 3] (.typed .parallel) .forward_or_better 10 ((5 : Nat) : Int)
          (fun _ => (none : Option Nat))).work.applications.count x
        = if 10 ≤ x ∧ x < 10 + 5 then 1 else 0) ∧
    ((for_each_n 64 [2, 3] (.typed .parallel) .forward_or_better 10 ((5 : Nat) : Int)
          (fun _ => (none : Option Nat))).work.applications : Multiset Nat) =
      ((for_each_n 64 [2, 3] (.typed .sequential) .forward_or_better 10 ((5 : Nat) : Int)
          (fun _ => (none : Option Nat))).work.applications : Multiset Nat) :=
  ⟨by simp [force_sequential, ExecutionPolicy.held_policy], by decide, by decide, by decide,
    fun _ _ => rfl,
    for_each_n_parallel_each_element_once 64 [2, 3] (.typed .parallel) 10 5
      (fun _ => (none : Option Nat))
      (by simp [force_sequential, ExecutionPolicy.held_policy]) (by decide) (by decide)
      (by decide) (fun _ _ => rfl)⟩

/-- C5: for `for_each_n` and for `for_each` alike, the sequential branch runs
exactly when the policy is sequential or the iterator category is input-only: a
parallel or deferred policy over input-only iterators runs the sequential loop,
a policy that is not sequential over forward-or-better iterators never does.
The compile-time tag `is_seq` itself is true exactly for the statically typed
sequential policy or input-only iterators; a type-erased policy holding the
sequential policy reaches the sequential branch through the re-dispatch. -/
theorem sequential_branch_selected_iff {ε : Type} (w : Nat) (split : List Nat) (fuel : Nat)
    (policy : ExecutionPolicy) (cat : IteratorCategory) (first n last : Nat)
    (f : Nat → Option ε) :
    ((for_each_n w split policy cat first (n : Int) f).work.is_sequential_loop ↔
        force_sequential policy cat) ∧
    (∀ r, for_each w split fuel policy cat first last f = some r →
        (r.work.is_sequential_loop ↔ force_sequential policy cat)) ∧
    (¬ force_sequential policy cat →
        (for_each w split fuel policy cat first last f).isSome = true) ∧
    (first ≤ last → last - first < fuel →
        (for_each w split fuel policy cat first last f).isSome = true) ∧
    (is_seq policy cat = true ↔ policy = .typed .sequential ∨ cat = .input_only) := by
  refine ⟨?_, ?_, ?_, ?_, ?_⟩
  · unfold for_each_n
    rw [is_negative_of_nat]
    rcases policy with p | p <;> rcases cat with _ | _ <;> rcases p with _ | _ | _ <;>
      simp [detail.for_each_n, detail.for_each_n_dispatch, is_seq,
        is_sequential_execution_policy, force_sequential, ExecutionPolicy.held_policy,
        for_each_n_seq_work, for_each_n_par_work]
  · intro r hr
    unfold for_each at hr
    rcases policy with p | p <;> rcases cat with _ | _ <;> rcases p with _ | _ | _ <;>
      simp only [detail.for_each, detail.for_each_dispatch, is_seq,
        is_sequential_execution_policy, Bool.or_false, Bool.or_true, Bool.false_or,
        decide_True, decide_False, Option.map_some', Option.some.injEq, reduceCtorEq] at hr <;>
      first
      | (have hw := for_each_seq_work _ _ _ _ _ r hr
         simp [force_sequential, ExecutionPolicy.held_policy, hw])
      | (subst hr
         simp [force_sequential, ExecutionPolicy.held_policy, detail.for_each_fwd,
           for_each_n_par_work])
      | (obtain ⟨x, hx, rfl⟩ := Option.map_eq_some'.1 hr
         have hw := for_each_seq_work _ _ _ _ _ x hx
         simpa [force_sequential, ExecutionPolicy.held_policy] using hw)
  · intro hpar
    unfold for_each
    rcases policy with p | p <;> rcases cat with _ | _ <;> rcases p with _ | _ | _ <;>
      first
      | (exfalso; exact hpar (Or.inl rfl))
      | (exfalso; exact hpar (Or.inr rfl))
      | simp [detail.for_each, detail.for_each_dispatch, is_seq,
          is_sequential_execution_policy]
  · intro hle hfuel
    unfold for_each
    rcases policy with p | p <;> rcases cat with _ | _ <;> rcases p with _ | _ | _ <;>
      simp [detail.for_each, detail.for_each_dispatch, is_seq,
        is_sequential_execution_policy,
        for_each_seq_eq_for_each_n_seq fuel _ first last f hle hfuel]
  · rcases policy with p | p <;> rcases cat with _ | _ <;> rcases p with _ | _ | _ <;>
      simp [is_seq, is_sequential_execution_policy]

/-- Instance of C5: the deferred policy over input-only iterators runs the
sequential loop of `for_each_n`. -/
theorem sequential_branch_selected_iff_witness :
    (for_each_n 64 [2, 3] (.typed .task) .input_only 10 ((5 : Nat) : Int)
        (fun _ => (none : Option Nat))).work.is_sequential_loop ↔
      force_sequential (.typed .task) .input_only :=
  (sequential_branch_selected_iff 64 [2, 3] 6 (.typed .task) .input_only 10 5 15
    (fun _ => (none : Option Nat))).1

/-- C6: for every non-negative count that fits `std::size_t`, every execution
policy, iterator category and split, whenever `for_each_n` returns a result that
stands for a value, that value is `first + count` (for count 0: `first`); with an
`f` that never faults the call does return, namely the result the policy builds
from `first + count`: the iterator itself under the synchronous policies, a
handle resolving to it under the deferred policy. -/
theorem for_each_n_success_value {ε : Type} (w : Nat) (split : List Nat)
    (policy : ExecutionPolicy) (cat : IteratorCategory) (first n : Nat) (f : Nat → Option ε)
    (hfit : n < 2 ^ w) :
    (∀ r v, (for_each_n w split policy cat first (n : Int) f).outcome = .returned r →
        r.resolve = .ready v → v = first + n) ∧
    ((∀ i, f i = none) →
        (for_each_n w split policy cat first (n : Int) f).outcome =
          .returned (detail.algorithm_result.get policy (first + n))) ∧
    (policy ≠ .typed .task →
        (detail.algorithm_result.get policy (first + n) : AlgResult ε Nat) =
          .direct (first + n)) ∧
    (policy = .typed .task →
        (detail.algorithm_result.get policy (first + n) : AlgResult ε Nat) =
          .deferred (.ready (first + n))) := by
  refine ⟨?_, ?_, ?_, ?_⟩
  · intro r v hr hv
    unfold for_each_n at hr
    rw [is_negative_of_nat, to_size_t_of_nat w n hfit] at hr
    rcases policy with p | p <;> rcases cat with _ | _ <;> rcases p with _ | _ | _ <;>
      simp only [detail.for_each_n, detail.for_each_n_dispatch, is_seq,
        is_sequential_execution_policy, Bool.or_false, Bool.or_true, Bool.false_or,
        decide_True, decide_False, reduceCtorEq, Bool.false_eq_true, if_false] at hr <;>
      first
      | exact for_each_n_seq_returned _ first n f r v hr hv
      | exact for_each_n_par_returned split _ first n f r v hr hv
      | (obtain ⟨r0, h0, hv0⟩ := as_plain_returned _ r v hr hv
         first
         | exact for_each_n_seq_returned _ first n f r0 v h0 hv0
         | exact for_each_n_par_returned split _ first n f r0 v h0 hv0)
  · intro hf
    unfold for_each_n
    rw [is_negative_of_nat, to_size_t_of_nat w n hfit]
    rcases policy with p | p <;> rcases cat with _ | _ <;> rcases p with _ | _ | _ <;>
      simp [detail.for_each_n, detail.for_each_n_dispatch, is_seq,
        is_sequential_execution_policy,
        for_each_n_seq_clean _ first n f (fun i _ => hf (first + i)),
        for_each_n_par_all_clean split _ first n f hf,
        detail.algorithm_result.get, Call.as_plain]
  · intro hne
    rcases policy with p | p <;> rcases p with _ | _ | _ <;>
      first
      | exact absurd rfl hne
      | rfl
  · intro he
    subst he
    rfl

/-- Instance of C6: five elements from position 10 under the deferred policy
over forward-or-better iterators, split into partitions of two and three. -/
theorem for_each_n_success_value_witness :
    5 < 2 ^ 64 ∧
    (for_each_n 64 [2, 3] (.typed .task) .forward_or_better 10 ((5 : Nat) : Int)
        (fun _ => (none : Option Nat))).outcome = .returned (.deferred (.ready 15)) :=
  ⟨by decide,
    (for_each_n_success_value 64 [2, 3] (.typed .task) .forward_or_better 10 5
      (fun _ => (none : Option Nat)) (by decide)).2.1 (fun _ => rfl)⟩

/-! ## Claims on for_each -/

/-- C8: on the sequential branch, `for_each` over a valid range `[first, last)`
(with fuel for its `last - first + 1` loop tests) does the work of the sequential
`for_each_n` called with count `distance(first, last)`; with an `f` that does not
fault on the range it applies `f` exactly `last - first` times, to the positions
`first, ..., last - 1`, each once and in range order, and returns nothing in the
result form of the policy. -/
theorem for_each_sequential_in_range_order {ε : Type} (w : Nat) (split : List Nat)
    (fuel : Nat) (policy : ExecutionPolicy) (cat : IteratorCategory) (first last : Nat)
    (f : Nat → Option ε)
    (hseq : force_sequential policy cat) (hvalid : first ≤ last)
    (hfuel : last - first < fuel) (hfit : last - first < 2 ^ w) :
    (∃ r, for_each w split fuel policy cat first last f = some r ∧
        r.work = (for_each_n w split policy cat first (distance first last) f).work) ∧
    ((∀ i, i < last - first → f (first + i) = none) →
      for_each w split fuel policy cat first last f =
        some
          { work := .sequential_loop (List.range' first (last - first))
            outcome := .returned (detail.algorithm_result.get policy ()) } ∧
      (List.range' first (last - first)).length = last - first) := by
  have hfe := fun p => for_each_seq_eq_for_each_n_seq fuel p first last f hvalid hfuel
  constructor
  · unfold for_each for_each_n
    rw [distance_of_le first last hvalid, is_negative_of_nat, to_size_t_of_nat w _ hfit]
    rcases policy with p | p <;> rcases cat with _ | _ <;> rcases p with _ | _ | _ <;>
      first
      | (simp [detail.for_each, detail.for_each_dispatch, detail.for_each_n,
          detail.for_each_n_dispatch, is_seq, is_sequential_execution_policy, hfe]; done)
      | (exfalso; simp [force_sequential, ExecutionPolicy.held_policy] at hseq)
  · intro hf
    refine ⟨?_, by simp⟩
    unfold for_each
    rcases policy with p | p <;> rcases cat with _ | _ <;> rcases p with _ | _ | _ <;>
      first
      | (simp [detail.for_each, detail.for_each_dispatch, is_seq,
          is_sequential_execution_policy, hfe,
          for_each_n_seq_clean _ first (last - first) f hf, Call.discard_value,
          AlgResult.discard_value, detail.algorithm_result.get, Call.as_plain]; done)
      | (exfalso; simp [force_sequential, ExecutionPolicy.held_policy] at hseq)

/-- Instance of C8: the range from position 10 to position 13 over input-only
iterators under the parallel policy. -/
theorem for_each_sequential_in_range_order_witness :
    force_sequential (.typed .parallel) .input_only ∧ 10 ≤ 13 ∧ 13 - 10 < 4 ∧
    13 - 10 < 2 ^ 64 ∧
    (∀ i, i < 13 - 10 → (fun _ => (none : Option Nat)) (10 + i) = none) ∧
    for_each 64 [1, 2] 4 (.typed .parallel) .input_only 10 13
        (fun _ => (none : Option Nat)) =
      some
        { work := .sequential_loop [10, 11, 12]
          outcome := .returned (.direct ()) } :=
  ⟨Or.inr rfl, by decide, by decide, by decide, fun _ _ => rfl,
    ((for_each_sequential_in_range_order 64 [1, 2] 4 (.typed .parallel) .input_only 10 13
      (fun _ => (none : Option Nat)) (Or.inr rfl) (by decide) (by decide) (by decide)).2
      (fun _ _ => rfl)).1⟩

/-! ## Claims on the fault paths -/

/-- C9: under the deferred policy on the sequential branch (input-only
iterators), when `f` faults at element `k` of the range and at no earlier one,
the catch-all calls the exception bridge, which captures the fault and returns
normally, but the captured failure is not returned: `for_each_n` and `for_each`
both end by control reaching the end of the function body, so no pending handle
holding the fault comes back to the caller. -/
theorem deferred_sequential_fault_returns_no_handle {ε : Type} (w : Nat) (split : List Nat)
    (fuel : Nat) (first n k : Nat) (f : Nat → Option ε) (e : ε)
    (hfit : n < 2 ^ w) (hfuel : n < fuel) (hk : k < n)
    (hclean : ∀ j, j < k → f (first + j) = none) (hf : f (first + k) = some e) :
    detail.handle_exception.call .task e = .captured (.normalized e) ∧
    for_each_n w split (.typed .task) .input_only first (n : Int) f =
      { work := .sequential_loop (List.range' first (k + 1))
        outcome := .fell_through } ∧
    for_each w split fuel (.typed .task) .input_only first (first + n) f =
      some
        { work := .sequential_loop (List.range' first (k + 1))
          outcome := .fell_through } := by
  refine ⟨rfl, ?_, ?_⟩
  · unfold for_each_n
    rw [is_negative_of_nat, to_size_t_of_nat w n hfit]
    simp [detail.for_each_n, is_seq, is_sequential_execution_policy,
      for_each_n_seq_fault _ first n k f e hk hclean hf, detail.handle_exception.call]
  · have hlen : first + n - first = n := by omega
    have hfe := for_each_seq_eq_for_each_n_seq fuel .task first (first + n) f (by omega)
      (by omega)
    rw [hlen] at hfe
    unfold for_each
    simp [detail.for_each, is_seq, is_sequential_execution_policy, hfe,
      for_each_n_seq_fault _ first n k f e hk hclean hf, detail.handle_exception.call,
      Call.discard_value]

/-- Instance of C9: five elements from position 10 over input-only iterators
under the deferred policy, `f` faulting at element 2. -/
theorem deferred_sequential_fault_returns_no_handle_witness :
    5 < 2 ^ 64 ∧ 5 < 6 ∧ 2 < 5 ∧
    (∀ j, j < 2 → (fun i => if i = 12 then some 7 else none) (10 + j) = none) ∧
    (fun i => if i = 12 then some 7 else none) (10 + 2) = some 7 ∧
    for_each_n 64 [2, 3] (.typed .task) .input_only 10 ((5 : Nat) : Int)
        (fun i => if i = 12 then some 7 else none) =
      { work := .sequential_loop [10, 11, 12]
        outcome := .fell_through } ∧
    for_each 64 [2, 3] 6 (.typed .task) .input_only 10 (10 + 5)
        (fun i => if i = 12 then some 7 else none) =
      some
        { work := .sequential_loop [10, 11, 12]
          outcome := .fell_through } :=
  ⟨by decide, by decide, by decide, by intro j hj; simp; omega, by simp,
    (deferred_sequential_fault_returns_no_handle 64 [2, 3] 6 10 5 2
      (fun i => if i = 12 then some 7 else none) 7 (by decide) (by decide) (by decide)
      (by intro j hj; simp; omega) (by simp)).2⟩

/-- C10, as a defect of the code: the forward overload of `detail::for_each`
evaluates `std::distance(first, last)` outside any catch-all.  When the range is
measured by incrementing the iterator and the increment at element `k` of the
range faults (and none before it), the fault leaves the overload as it was
raised, without passing the exception bridge, and the engine `for_each_n` is not
called; the sequential overloads wrap their whole traversal in a catch-all that
calls the bridge. -/
theorem forward_distance_fault_leaves_unclassified {ε : Type} (fuel w : Nat)
    (split : List Nat) (p : ConcretePolicy) (first last k : Nat)
    (advance f : Nat → Option ε) (e : ε)
    (hk : first + k < last) (hfuel : k < fuel)
    (hclean : ∀ j, j < k → advance (first + j) = none)
    (hfault : advance (first + k) = some e) :
    std_distance fuel first last advance = some (.threw e) ∧
    detail.for_each_fwd_measured fuel w split p first last advance f = some (.threw e) := by
  have h := std_distance_fault last advance e k fuel first hfuel hk hclean hfault
  exact ⟨h, by simp [detail.for_each_fwd_measured, h]⟩

/-- Instance of C10: `for_each` under the parallel policy over the three
elements from position 10 on, the increment of the iterator faulting at
position 11 with the fault 7, `f` faulting nowhere. -/
theorem forward_distance_fault_leaves_unclassified_witness :
    10 + 1 < 13 ∧ 1 < 4 ∧
    (∀ j, j < 1 → (fun i => if i = 11 then some 7 else none) (10 + j) = none) ∧
    (fun i => if i = 11 then some 7 else none) (10 + 1) = some 7 ∧
    detail.for_each_fwd_measured 4 64 [1, 2] .parallel 10 13
      (fun i => if i = 11 then some 7 else none) (fun _ => (none : Option Nat)) =
        some (.threw 7) :=
  ⟨by decide, by decide, by intro j hj; simp; omega, by simp,
    (forward_distance_fault_leaves_unclassified 4 64 [1, 2] .parallel 10 13 1
      (fun i => if i = 11 then some 7 else none) (fun _ => (none : Option Nat)) 7
      (by decide) (by decide) (by intro j hj; simp; omega) (by simp)).2⟩

end hpx.parallel

namespace hpx

/-! ## Lemmas on the store and on the lookup -/

theorem store_getElem_append {Tag Ty V : Type} (st ext : Store Tag Ty V) (a : Nat)
    (node : detail.exception_info_node Tag Ty V) (h : st[a]? = some node) :
    (st ++ ext)[a]? = some node := by
  have hlt : a < st.length := by
    rcases List.getElem?_eq_some_iff.1 h with ⟨hlt, _⟩
    exact hlt
  rw [List.getElem?_append_left hlt]
  exact h

theorem is_seg_append_store {Tag Ty V : Type} (st ext : Store Tag Ty V) :
    ∀ (nodes : List (detail.exception_info_node Tag Ty V)) (p q : Option Nat),
      st.is_seg p nodes q → (st ++ ext).is_seg p nodes q := by
  intro nodes
  induction nodes with
  | nil => intro p q h; cases p <;> simpa [Store.is_seg] using h
  | cons node rest ih =>
    intro p q h
    cases p with
    | none => simp [Store.is_seg] at h
    | some a =>
      simp only [Store.is_seg] at h ⊢
      exact ⟨store_getElem_append st ext a node h.1, ih _ _ h.2⟩

theorem node_data_eq_none_iff {Tag Ty V : Type} [DecidableEq Tag] [DecidableEq Ty]
    (node : detail.exception_info_node Tag Ty V) (tag : Tag) (type : Ty) :
    node.node_data tag type = none ↔ ∀ d ∈ node.data, ¬ (d.tag = tag ∧ d.type = type) := by
  unfold detail.exception_info_node.node_data
  cases hfind : node.data.find? (fun d => decide (d.tag = tag ∧ d.type = type)) with
  | none =>
    simp only [true_iff]
    intro d hd
    have := List.find?_eq_none.1 hfind d hd
    simpa using this
  | some d =>
    simp only [reduceCtorEq, false_iff]
    intro hall
    have hmem := List.mem_of_find?_eq_some hfind
    have hp := List.find?_some hfind
    exact hall d hmem (by simpa using hp)

theorem scan_cons {Tag Ty V : Type} [DecidableEq Tag] [DecidableEq Ty]
    (node : detail.exception_info_node Tag Ty V)
    (rest : List (detail.exception_info_node Tag Ty V)) (tag : Tag) (type : Ty) :
    scan_front_to_back (node :: rest) tag type =
      match node.node_data tag type with
      | some v => some v
      | none => scan_front_to_back rest tag type := by
  have key : ∀ (l : List (error_info Tag Ty V)),
      (match l.filter (fun d => decide (d.tag = tag) && decide (d.type = type)) with
        | d :: _ => some d._value
        | [] => scan_front_to_back rest tag type) =
      (match (match l.find? (fun d => decide (d.tag = tag ∧ d.type = type)) with
          | some d => some d._value
          | none => none) with
        | some v => some v
        | none => scan_front_to_back rest tag type) := by
    intro l
    induction l with
    | nil => simp
    | cons d l ih =>
      by_cases hd : d.tag = tag ∧ d.type = type
      · simp [List.filter_cons, List.find?_cons, hd.1, hd.2]
      · have hb : (decide (d.tag = tag) && decide (d.type = type)) = false := by
          simpa using hd
        have hb2 : decide (d.tag = tag ∧ d.type = type) = false := by simpa using hd
        simp only [List.filter_cons, List.find?_cons, hb, hb2]
        exact ih
  simp only [scan_front_to_back, detail.exception_info_node.node_data]
  exact key node.data

theorem scan_eq_none_iff {Tag Ty V : Type} [DecidableEq Tag] [DecidableEq Ty]
    (nodes : List (detail.exception_info_node Tag Ty V)) (tag : Tag) (type : Ty) :
    scan_front_to_back nodes tag type = none ↔
      ∀ node ∈ nodes, ∀ d ∈ node.data, ¬ (d.tag = tag ∧ d.type = type) := by
  induction nodes with
  | nil => simp [scan_front_to_back]
  | cons node rest ih =>
    rw [scan_cons]
    cases hn : node.node_data tag type with
    | some v =>
      simp only [reduceCtorEq, false_iff]
      intro hall
      have := (node_data_eq_none_iff node tag type).2 (hall node (List.mem_cons_self _ _))
      rw [hn] at this
      cases this
    | none =>
      simp only [ih, List.mem_cons, forall_eq_or_imp]
      constructor
      · intro h
        exact ⟨(node_data_eq_none_iff node tag type).1 hn, h⟩
      · intro h
        exact h.2

theorem get_of_chain {Tag Ty V : Type} [DecidableEq Tag] [DecidableEq Ty]
    (st : Store Tag Ty V) (tag : Tag) (type : Ty) :
    ∀ (nodes : List (detail.exception_info_node Tag Ty V)) (p : Option Nat) (fuel : Nat),
      st.is_chain p nodes → nodes.length ≤ fuel →
      exception_info.get fuel st { _data := p } tag type =
        some (scan_front_to_back nodes tag type) := by
  intro nodes
  induction nodes with
  | nil =>
    intro p fuel h _
    have hp : p = none := by
      cases p with
      | none => rfl
      | some a => simp [Store.is_chain, Store.is_seg] at h
    subst hp
    simp [exception_info.get, scan_front_to_back]
  | cons node rest ih =>
    intro p fuel h hfuel
    cases p with
    | none => simp [Store.is_chain, Store.is_seg] at h
    | some a =>
      simp only [Store.is_chain, Store.is_seg] at h
      obtain ⟨k, rfl⟩ : ∃ k, fuel = k + 1 := ⟨fuel - 1, by simp at hfuel; omega⟩
      have hk : rest.length ≤ k := by simp at hfuel; omega
      have hrest := ih node.next k h.2 hk
      rw [scan_cons]
      simp only [exception_info.get, error_info.lookup, h.1]
      cases hn : node.node_data tag type with
      | some v => rfl
      | none =>
        simp only [exception_info.get] at hrest
        cases hnext : node.next with
        | none =>
          rw [hnext] at hrest
          simpa using hrest
        | some n =>
          rw [hnext] at hrest
          simpa using hrest

theorem lookup_head {Tag Ty V : Type} [DecidableEq Tag] [DecidableEq Ty]
    (st : Store Tag Ty V) (self : exception_info) (tagged_values : List (error_info Tag Ty V))
    (tag : Tag) (type : Ty) (v : V) (fuel : Nat)
    (h : (detail.exception_info_node.mk tagged_values self._data).node_data tag type = some v) :
    exception_info.get (fuel + 1) (exception_info.set st self tagged_values).1
      (exception_info.set st self tagged_values).2 tag type = some (some v) := by
  simp only [exception_info.set, exception_info.get, error_info.lookup,
    List.getElem?_concat_length, h]

theorem set_is_chain {Tag Ty V : Type} (st : Store Tag Ty V) (self : exception_info)
    (tagged_values : List (error_info Tag Ty V))
    (c : List (detail.exception_info_node Tag Ty V)) (q : Option Nat)
    (h : st.is_seg self._data c q) :
    (exception_info.set st self tagged_values).1.is_seg
      (exception_info.set st self tagged_values).2._data
      ({ data := tagged_values, next := self._data } :: c) q := by
  simp only [exception_info.set, Store.is_seg, List.getElem?_concat_length, true_and]
  exact is_seg_append_store st _ c _ q h

theorem get_after_set_on_empty_store (v : String) :
    exception_info.get 1
      (exception_info.set ([] : Store Nat Nat String) exception_info.new
        [{ tag := 0, type := 0, _value := v }]).1
      (exception_info.set ([] : Store Nat Nat String) exception_info.new
        [{ tag := 0, type := 0, _value := v }]).2 0 0 = some (some v) := by
  apply lookup_head
  simp [detail.exception_info_node.node_data]

/-! ## Lemmas on programs over several objects -/

theorem is_path_none {Tag Ty V : Type} (st : Store Tag Ty V) (path : List Nat) :
    st.is_path none path ↔ path = [] := by
  cases path <;> simp [Store.is_path]

theorem is_path_some {Tag Ty V : Type} (st : Store Tag Ty V) (a : Nat) (path : List Nat) :
    st.is_path (some a) path ↔
      ∃ node rest, path = a :: rest ∧ st[a]? = some node ∧ st.is_path node.next rest := by
  cases path with
  | nil => simp [Store.is_path]
  | cons b rest =>
    simp only [Store.is_path, List.cons.injEq]
    constructor
    · rintro ⟨rfl, h⟩
      cases hn : st[a]? with
      | none => simp [hn] at h
      | some node =>
        rw [hn] at h
        exact ⟨node, rest, ⟨rfl, rfl⟩, rfl, h⟩
    · rintro ⟨node, rest0, ⟨rfl, rfl⟩, hn, h⟩
      rw [hn]
      exact ⟨rfl, h⟩

theorem is_path_det {Tag Ty V : Type} (st : Store Tag Ty V) :
    ∀ (l1 l2 : List Nat) (p : Option Nat), st.is_path p l1 → st.is_path p l2 → l1 = l2 := by
  intro l1
  induction l1 with
  | nil =>
    intro l2 p h1 h2
    have hp : p = none := by simpa [Store.is_path] using h1
    subst hp
    exact ((is_path_none st l2).1 h2).symm
  | cons b rest ih =>
    intro l2 p h1 h2
    cases p with
    | none => simp [Store.is_path] at h1
    | some a =>
      obtain ⟨n1, r1, e1, hn1, hp1⟩ := (is_path_some st a _).1 h1
      obtain ⟨n2, r2, e2, hn2, hp2⟩ := (is_path_some st a _).1 h2
      rw [hn1] at hn2
      cases hn2
      simp only [List.cons.injEq] at e1
      obtain ⟨rfl, rfl⟩ := e1
      subst e2
      rw [ih r2 _ hp1 hp2]

theorem is_path_lt {Tag Ty V : Type} (st : Store Tag Ty V) :
    ∀ (path : List Nat) (p : Option Nat), st.is_path p path → ∀ a ∈ path, a < st.length := by
  intro path
  induction path with
  | nil => intro p _ a ha; simp at ha
  | cons b rest ih =>
    intro p h a ha
    cases p with
    | none => simp [Store.is_path] at h
    | some a0 =>
      obtain ⟨n1, r1, e1, hn1, hp1⟩ := (is_path_some st a0 _).1 h
      simp only [List.cons.injEq] at e1
      obtain ⟨rfl, rfl⟩ := e1
      rcases List.mem_cons.1 ha with rfl | hr
      · exact (List.getElem?_eq_some_iff.1 hn1).1
      · exact ih _ hp1 a hr

theorem is_path_append_store {Tag Ty V : Type} (st ext : Store Tag Ty V) :
    ∀ (path : List Nat) (p : Option Nat), st.is_path p path → (st ++ ext).is_path p path := by
  intro path
  induction path with
  | nil => intro p h; simpa [Store.is_path] using h
  | cons b rest ih =>
    intro p h
    cases p with
    | none => simp [Store.is_path] at h
    | some a0 =>
      obtain ⟨n1, r1, e1, hn1, hp1⟩ := (is_path_some st a0 _).1 h
      simp only [List.cons.injEq] at e1
      obtain ⟨rfl, rfl⟩ := e1
      exact (is_path_some _ _ _).2
        ⟨n1, _, rfl, store_getElem_append st ext _ n1 hn1, ih _ hp1⟩

theorem is_chain_of_is_path {Tag Ty V : Type} (st : Store Tag Ty V) :
    ∀ (path : List Nat) (p : Option Nat), st.is_path p path →
      ∃ nodes, st.is_chain p nodes ∧ nodes.length = path.length := by
  intro path
  induction path with
  | nil =>
    intro p h
    have hp : p = none := by simpa [Store.is_path] using h
    subst hp
    exact ⟨[], by simp [Store.is_chain, Store.is_seg], rfl⟩
  | cons b rest ih =>
    intro p h
    cases p with
    | none => simp [Store.is_path] at h
    | some a0 =>
      obtain ⟨n1, r1, e1, hn1, hp1⟩ := (is_path_some st a0 _).1 h
      simp only [List.cons.injEq] at e1
      obtain ⟨rfl, rfl⟩ := e1
      obtain ⟨nodes, hc, hl⟩ := ih _ hp1
      exact ⟨n1 :: nodes, by simpa [Store.is_chain, Store.is_seg] using ⟨hn1, hc⟩, by simp [hl]⟩

theorem not_reaches_of_null {Tag Ty V : Type} (s : Objects Tag Ty V) (x a : Nat)
    (h : (s.objs x)._data = none) : ¬ s.reaches x a := by
  rintro ⟨path, hp, ha⟩
  rw [h] at hp
  rw [(is_path_none _ _).1 hp] at ha
  simp at ha

theorem reaches_congr {Tag Ty V : Type} (s t : Objects Tag Ty V) (x y a : Nat)
    (hst : t.store = s.store) (h : (t.objs x)._data = (s.objs y)._data) :
    t.reaches x a ↔ s.reaches y a := by
  unfold Objects.reaches
  rw [hst, h]

theorem exclusive_of_renaming {Tag Ty V : Type} (s t : Objects Tag Ty V)
    (src : Nat → Option Nat) (hst : t.store = s.store)
    (hnull : ∀ k, src k = none → (t.objs k)._data = none)
    (hsrc : ∀ k k0, src k = some k0 → (t.objs k)._data = (s.objs k0)._data)
    (hinj : ∀ k l k0, k ≠ l → src k = some k0 → src l ≠ some k0)
    (h : s.exclusive) : t.exclusive := by
  obtain ⟨hA, hB⟩ := h
  constructor
  · intro k
    cases hk : src k with
    | none =>
      rw [hnull k hk]
      exact ⟨[], (is_path_none _ _).2 rfl⟩
    | some k0 =>
      rw [hst, hsrc k k0 hk]
      exact hA k0
  · intro x y a hxy hx hy
    cases hsx : src x with
    | none => exact not_reaches_of_null t x a (hnull x hsx) hx
    | some x0 =>
      cases hsy : src y with
      | none => exact not_reaches_of_null t y a (hnull y hsy) hy
      | some y0 =>
        have hne : x0 ≠ y0 := by
          intro he
          subst he
          exact hinj x y x0 hxy hsx hsy
        exact hB x0 y0 a hne ((reaches_congr s t x x0 a hst (hsrc x x0 hsx)).1 hx)
          ((reaches_congr s t y y0 a hst (hsrc y y0 hsy)).1 hy)

theorem reaches_lt {Tag Ty V : Type} (s : Objects Tag Ty V) (x a : Nat)
    (h : s.reaches x a) : a < s.store.length := by
  obtain ⟨path, hp, ha⟩ := h
  exact is_path_lt _ path _ hp a ha

theorem reaches_after_set_other {Tag Ty V : Type} (s : Objects Tag Ty V) (self k a : Nat)
    (tagged_values : List (error_info Tag Ty V)) (hk : k ≠ self)
    (hA : ∃ path, s.store.is_path (s.objs k)._data path)
    (h : (s.step (.set self tagged_values)).reaches k a) : s.reaches k a := by
  obtain ⟨path, hp, ha⟩ := h
  obtain ⟨p0, hp0⟩ := hA
  simp only [Objects.step, exception_info.set, Function.update_noteq hk] at hp
  have := is_path_det _ _ _ _ hp (is_path_append_store s.store _ p0 _ hp0)
  subst this
  exact ⟨path, hp0, ha⟩

theorem is_path_after_set {Tag Ty V : Type} (s : Objects Tag Ty V) (self : Nat)
    (tagged_values : List (error_info Tag Ty V)) (p0 : List Nat)
    (hp0 : s.store.is_path (s.objs self)._data p0) :
    (s.step (.set self tagged_values)).store.is_path
      ((s.step (.set self tagged_values)).objs self)._data (s.store.length :: p0) := by
  simp only [Objects.step, exception_info.set, Function.update_same]
  exact (is_path_some _ _ _).2
    ⟨_, p0, rfl, List.getElem?_concat_length _ _, is_path_append_store s.store _ p0 _ hp0⟩

theorem reaches_after_set_self {Tag Ty V : Type} (s : Objects Tag Ty V) (self a : Nat)
    (tagged_values : List (error_info Tag Ty V))
    (hA : ∃ path, s.store.is_path (s.objs self)._data path)
    (h : (s.step (.set self tagged_values)).reaches self a) :
    a = s.store.length ∨ s.reaches self a := by
  obtain ⟨path, hp, ha⟩ := h
  obtain ⟨p0, hp0⟩ := hA
  have := is_path_det _ _ _ _ hp (is_path_after_set s self tagged_values p0 hp0)
  subst this
  rcases List.mem_cons.1 ha with rfl | hr
  · exact Or.inl rfl
  · exact Or.inr ⟨p0, hp0, hr⟩

theorem step_exclusive {Tag Ty V : Type} (s : Objects Tag Ty V) (op : Operation Tag Ty V)
    (h : s.exclusive) : (s.step op).exclusive := by
  cases op with
  | construct x =>
    refine exclusive_of_renaming s _ (fun k => if k = x then none else some k) rfl ?_ ?_ ?_ h
    · intro k hk
      have hkx : k = x := by
        by_contra hne
        simp [hne] at hk
      subst hkx
      simp [Objects.step, exception_info.new]
    · intro k k0 hk
      have hkx : k ≠ x := by
        intro he
        simp [he] at hk
      simp only [hkx, if_false, Option.some.injEq] at hk
      subst hk
      simp [Objects.step, Function.update_noteq hkx]
    · intro k l k0 hkl hk hl
      by_cases hkx : k = x
      · simp [hkx] at hk
      · by_cases hlx : l = x
        · simp [hlx] at hl
        · simp only [hkx, hlx, if_false, Option.some.injEq] at hk hl
          omega
  | move_construct x other =>
    by_cases hxo : x = other
    · simpa [Objects.step, hxo] using h
    · refine exclusive_of_renaming s _
        (fun k => if k = x then some other else if k = other then none else some k)
        (by simp [Objects.step, hxo]) ?_ ?_ ?_ h
      · intro k hk
        by_cases hkx : k = x
        · simp [hkx] at hk
        · by_cases hko : k = other
          · subst hko
            simp [Objects.step, hxo, Function.update_noteq hkx, exception_info.move_construct]
          · simp [hkx, hko] at hk
      · intro k k0 hk
        simp only at hk
        split_ifs at hk with hkx hko
        · cases hk
          subst hkx
          simp [Objects.step, hxo, exception_info.move_construct]
        · cases hk
          simp [Objects.step, hxo, Function.update_noteq hkx, Function.update_noteq hko]
      · intro k l k0 hkl hk hl
        simp only at hk hl
        split_ifs at hk hl <;> simp only [Option.some.injEq] at hk hl <;> omega
  | move_assign self other =>
    by_cases hxo : self = other
    · simpa [Objects.step, hxo] using h
    · refine exclusive_of_renaming s _
        (fun k => if k = self then some other else if k = other then none else some k)
        (by simp [Objects.step, hxo]) ?_ ?_ ?_ h
      · intro k hk
        by_cases hkx : k = self
        · simp [hkx] at hk
        · by_cases hko : k = other
          · subst hko
            simp [Objects.step, hxo, Function.update_noteq hkx, exception_info.move_assign]
          · simp [hkx, hko] at hk
      · intro k k0 hk
        simp only at hk
        split_ifs at hk with hkx hko
        · cases hk
          subst hkx
          simp [Objects.step, hxo, exception_info.move_assign]
        · cases hk
          simp [Objects.step, hxo, Function.update_noteq hkx, Function.update_noteq hko]
      · intro k l k0 hkl hk hl
        simp only at hk hl
        split_ifs at hk hl <;> simp only [Option.some.injEq] at hk hl <;> omega
  | set self tagged_values =>
    obtain ⟨hA, hB⟩ := h
    constructor
    · intro k
      by_cases hk : k = self
      · subst hk
        obtain ⟨p0, hp0⟩ := hA k
        exact ⟨_, is_path_after_set s k tagged_values p0 hp0⟩
      · obtain ⟨p0, hp0⟩ := hA k
        refine ⟨p0, ?_⟩
        simp only [Objects.step, exception_info.set, Function.update_noteq hk]
        exact is_path_append_store s.store _ p0 _ hp0
    · intro x y a hxy hx hy
      by_cases hxs : x = self
      · subst hxs
        have hy0 := reaches_after_set_other s x y a tagged_values (Ne.symm hxy) (hA y) hy
        rcases reaches_after_set_self s x a tagged_values (hA x) hx with ha | hx0
        · have := reaches_lt s y a hy0
          omega
        · exact hB x y a hxy hx0 hy0
      · have hx0 := reaches_after_set_other s self x a tagged_values hxs (hA x) hx
        by_cases hys : y = self
        · subst hys
          rcases reaches_after_set_self s y a tagged_values (hA y) hy with ha | hy0
          · have := reaches_lt s x a hx0
            omega
          · exact hB x y a hxy hx0 hy0
        · exact hB x y a hxy hx0
            (reaches_after_set_other s self y a tagged_values hys (hA y) hy)

theorem init_exclusive {Tag Ty V : Type} : (Objects.init : Objects Tag Ty V).exclusive := by
  constructor
  · intro x
    exact ⟨[], by simp [Objects.init, exception_info.new, Store.is_path]⟩
  · intro x y a _ hx _
    exact not_reaches_of_null _ x a (by simp [Objects.init, exception_info.new]) hx

theorem foldl_exclusive {Tag Ty V : Type} :
    ∀ (ops : List (Operation Tag Ty V)) (s : Objects Tag Ty V), s.exclusive →
      (ops.foldl Objects.step s).exclusive := by
  intro ops
  induction ops with
  | nil => intro s h; simpa using h
  | cons op ops ih => intro s h; exact ih _ (step_exclusive s op h)

theorem run_exclusive {Tag Ty V : Type} (ops : List (Operation Tag Ty V)) :
    (Objects.run ops).exclusive :=
  foldl_exclusive ops _ init_exclusive

theorem run_append_one {Tag Ty V : Type} (ops : List (Operation Tag Ty V))
    (op : Operation Tag Ty V) : Objects.run (ops ++ [op]) = (Objects.run ops).step op := by
  simp [Objects.run, List.foldl_append]

/-! ## Claims on the context store -/

/-- C11: for every store and every `exception_info` `x`, empty or not, holding
the tag already or not, `x.set(Tag{v}).get<Tag>()` returns `v`: the lookup finds
the value in the node just set, so a later `set` of a tag shadows every older
value of that tag. -/
theorem set_then_get_returns_value {Tag Ty V : Type} [DecidableEq Tag] [DecidableEq Ty]
    (st : Store Tag Ty V) (x : exception_info) (tag : Tag) (type : Ty) (v : V) (fuel : Nat) :
    exception_info.get (fuel + 1)
      (exception_info.set st x [{ tag := tag, type := type, _value := v }]).1
      (exception_info.set st x [{ tag := tag, type := type, _value := v }]).2 tag type =
      some (some v) := by
  apply lookup_head
  simp [detail.exception_info_node.node_data]

/-- C12: for every `exception_info` `x` with its chain in the store and every
fact `b` whose tag or type differs from the requested ones, setting `b` leaves
the lookup unchanged: `x.set(b).get<A>()` equals `x.get<A>()`, which is a
returned value or `nullptr`. -/
theorem set_other_tag_keeps_get {Tag Ty V : Type} [DecidableEq Tag] [DecidableEq Ty]
    (st : Store Tag Ty V) (x : exception_info)
    (nodes : List (detail.exception_info_node Tag Ty V)) (tag : Tag) (type : Ty)
    (b : error_info Tag Ty V) (fuel : Nat)
    (hchain : st.is_chain x._data nodes) (hfuel : nodes.length ≤ fuel)
    (hne : b.tag ≠ tag ∨ b.type ≠ type) :
    exception_info.get (fuel + 1) (exception_info.set st x [b]).1
        (exception_info.set st x [b]).2 tag type =
      exception_info.get fuel st x tag type ∧
    ∃ r, exception_info.get fuel st x tag type = some r := by
  have hold := get_of_chain st tag type nodes x._data fuel hchain hfuel
  have hnew := get_of_chain (exception_info.set st x [b]).1 tag type
    ({ data := [b], next := x._data } :: nodes) (exception_info.set st x [b]).2._data
    (fuel + 1) (set_is_chain st x [b] nodes none hchain) (by simp; omega)
  have hskip : (detail.exception_info_node.mk [b] x._data).node_data tag type = none := by
    rw [node_data_eq_none_iff]
    intro d hd
    simp only [List.mem_singleton] at hd
    subst hd
    rintro ⟨h1, h2⟩
    rcases hne with h | h
    · exact h h1
    · exact h h2
  rw [scan_cons, hskip] at hnew
  exact ⟨hnew.trans hold.symm, _, hold⟩

/-- Instance of C12: `exception_info().set(A{1}).set(B{2}).get<A>()` is 1. -/
theorem set_other_tag_keeps_get_witness :
    sample.A1.1.is_chain sample.A1.2._data
      [{ data := [{ tag := 0, type := 0, _value := 1 }], next := none }] ∧
    [({ data := [{ tag := 0, type := 0, _value := 1 }], next := none } :
        detail.exception_info_node Nat Nat Nat)].length ≤ 1 ∧
    ((1 : Nat) ≠ 0 ∨ (0 : Nat) ≠ 0) ∧
    exception_info.get 2 sample.A1B2.1 sample.A1B2.2 0 0 = some (some 1) :=
  ⟨by decide, by decide, Or.inl (by decide),
    (set_other_tag_keeps_get sample.A1.1 sample.A1.2
      [{ data := [{ tag := 0, type := 0, _value := 1 }], next := none }] 0 0
      { tag := 1, type := 0, _value := 2 } 1 (by decide) (by decide)
      (Or.inl (by decide))).1⟩

/-- C13: `get<Tag>()` is total and does not fault: for every `exception_info`
with its chain in the store, the default-constructed one included, a lookup
that may visit as many nodes as the chain is deep returns; it returns `nullptr`
exactly when no node of the chain holds a fact for the tag (and type), and a
value otherwise.  On a default-constructed object it returns `nullptr` without
visiting any node. -/
theorem get_is_total {Tag Ty V : Type} [DecidableEq Tag] [DecidableEq Ty]
    (st : Store Tag Ty V) (x : exception_info)
    (nodes : List (detail.exception_info_node Tag Ty V)) (tag : Tag) (type : Ty) (fuel : Nat)
    (hchain : st.is_chain x._data nodes) (hfuel : nodes.length ≤ fuel) :
    (∃ r, exception_info.get fuel st x tag type = some r ∧
      (r = none ↔ ∀ node ∈ nodes, ∀ d ∈ node.data, ¬ (d.tag = tag ∧ d.type = type))) ∧
    exception_info.get 0 st exception_info.new tag type = some none ∧
    st.is_chain exception_info.new._data [] := by
  refine ⟨⟨_, get_of_chain st tag type nodes x._data fuel hchain hfuel, ?_⟩, rfl, rfl⟩
  exact scan_eq_none_iff nodes tag type

/-- Instance of C13: on `exception_info().set(A{1}).set(B{2})`, a chain two
nodes deep, the lookup of an unset tag `C` (tag 2) returns `nullptr` within two
visited nodes. -/
theorem get_is_total_witness :
    sample.A1B2.1.is_chain sample.A1B2.2._data
      [{ data := [{ tag := 1, type := 0, _value := 2 }], next := some 0 },
        { data := [{ tag := 0, type := 0, _value := 1 }], next := none }] ∧
    [({ data := [{ tag := 1, type := 0, _value := 2 }], next := some 0 } :
        detail.exception_info_node Nat Nat Nat),
      { data := [{ tag := 0, type := 0, _value := 1 }], next := none }].length ≤ 2 ∧
    ∃ r, exception_info.get 2 sample.A1B2.1 sample.A1B2.2 2 0 = some r ∧
      (r = none ↔
        ∀ node ∈ [({ data := [{ tag := 1, type := 0, _value := 2 }], next := some 0 } :
            detail.exception_info_node Nat Nat Nat),
          { data := [{ tag := 0, type := 0, _value := 1 }], next := none }],
          ∀ d ∈ node.data, ¬ (d.tag = 2 ∧ d.type = 0)) :=
  ⟨by decide, by decide,
    (get_is_total sample.A1B2.1 sample.A1B2.2
      [{ data := [{ tag := 1, type := 0, _value := 2 }], next := some 0 },
        { data := [{ tag := 0, type := 0, _value := 1 }], next := none }] 2 0 2
      (by decide) (by decide)).1⟩

/-- C14: for every chain and every tag and type, `get<Tag>()` is the scan of the
specification: the nodes are scanned from the head to the tail and the value of
the first node holding a fact with exactly the requested (tag, type) pair is
returned; a head node none of whose facts has both the requested tag and the
requested type (the same type under another tag, the same tag with another
type) is skipped. -/
theorem get_is_front_to_back_scan {Tag Ty V : Type} [DecidableEq Tag] [DecidableEq Ty]
    (st : Store Tag Ty V) (x : exception_info)
    (nodes : List (detail.exception_info_node Tag Ty V)) (tag : Tag) (type : Ty) (fuel : Nat)
    (hchain : st.is_chain x._data nodes) (hfuel : nodes.length ≤ fuel) :
    exception_info.get fuel st x tag type = some (scan_front_to_back nodes tag type) ∧
    (∀ node rest, nodes = node :: rest →
      (∀ d ∈ node.data, d.tag ≠ tag ∨ d.type ≠ type) →
      exception_info.get fuel st x tag type = some (scan_front_to_back rest tag type)) := by
  have hget := get_of_chain st tag type nodes x._data fuel hchain hfuel
  refine ⟨hget, ?_⟩
  intro node rest hnodes hskip
  have hnone : node.node_data tag type = none := by
    rw [node_data_eq_none_iff]
    intro d hd hboth
    rcases hskip d hd with h | h
    · exact h hboth.1
    · exact h hboth.2
  rw [hget, hnodes, scan_cons, hnone]

/-- Instance of C14: in a chain whose head holds the requested value type under
another tag and whose second node holds the requested tag with another value
type, the lookup returns the value of the third node. -/
theorem get_is_front_to_back_scan_witness :
    sample.skips.1.is_chain sample.skips.2._data
      [{ data := [{ tag := 1, type := 0, _value := 5 }], next := some 1 },
        { data := [{ tag := 0, type := 1, _value := 6 }], next := some 0 },
        { data := [{ tag := 0, type := 0, _value := 1 }], next := none }] ∧
    [({ data := [{ tag := 1, type := 0, _value := 5 }], next := some 1 } :
        detail.exception_info_node Nat Nat Nat),
      { data := [{ tag := 0, type := 1, _value := 6 }], next := some 0 },
      { data := [{ tag := 0, type := 0, _value := 1 }], next := none }].length ≤ 3 ∧
    exception_info.get 3 sample.skips.1 sample.skips.2 0 0 = some (some 1) :=
  ⟨by decide, by decide,
    (get_is_front_to_back_scan sample.skips.1 sample.skips.2
      [{ data := [{ tag := 1, type := 0, _value := 5 }], next := some 1 },
        { data := [{ tag := 0, type := 1, _value := 6 }], next := some 0 },
        { data := [{ tag := 0, type := 0, _value := 1 }], next := none }] 0 0 3
      (by decide) (by decide)).1⟩

/-- C15: for every `exception_info` with chain `c` and every call `set(f1, ...,
fn)`, the chain after the call is exactly one new node holding `f1..fn` followed
by `c`: one node is allocated whatever `n` is, the chain is one node longer, no
node of the store is modified and every chain of the store stays what it was,
and when the facts have pairwise different (tag, type) pairs each of them is
retrieved by its tag. -/
theorem set_prepends_one_node {Tag Ty V : Type} [DecidableEq Tag] [DecidableEq Ty]
    (st : Store Tag Ty V) (x : exception_info)
    (c : List (detail.exception_info_node Tag Ty V))
    (tagged_values : List (error_info Tag Ty V))
    (hchain : st.is_chain x._data c) :
    (exception_info.set st x tagged_values).1.is_chain
        (exception_info.set st x tagged_values).2._data
        ({ data := tagged_values, next := x._data } :: c) ∧
    ({ data := tagged_values, next := x._data } :: c).length = c.length + 1 ∧
    (exception_info.set st x tagged_values).1.length = st.length + 1 ∧
    (∀ a, a < st.length → (exception_info.set st x tagged_values).1[a]? = st[a]?) ∧
    (∀ p nodes q, st.is_seg p nodes q →
      (exception_info.set st x tagged_values).1.is_seg p nodes q) ∧
    (tagged_values.Pairwise (fun d1 d2 => d1.tag ≠ d2.tag ∨ d1.type ≠ d2.type) →
      ∀ d ∈ tagged_values, ∀ fuel,
        exception_info.get (fuel + 1) (exception_info.set st x tagged_values).1
          (exception_info.set st x tagged_values).2 d.tag d.type = some (some d._value)) := by
  refine ⟨set_is_chain st x tagged_values c none hchain, by simp, by simp [exception_info.set],
    ?_, ?_, ?_⟩
  · intro a ha
    simp only [exception_info.set]
    exact List.getElem?_append_left ha
  · intro p nodes q h
    exact is_seg_append_store st _ nodes p q h
  · intro hpair d hd fuel
    apply lookup_head
    simp only [detail.exception_info_node.node_data]
    have key : ∀ (l : List (error_info Tag Ty V)),
        l.Pairwise (fun d1 d2 => d1.tag ≠ d2.tag ∨ d1.type ≠ d2.type) → d ∈ l →
        l.find? (fun d0 => decide (d0.tag = d.tag ∧ d0.type = d.type)) = some d := by
      intro l
      induction l with
      | nil => intro _ h; simp at h
      | cons d0 l ih =>
        intro hp hmem
        rw [List.pairwise_cons] at hp
        rcases List.mem_cons.1 hmem with h | h
        · subst h
          simp [List.find?_cons]
        · have hne := hp.1 d h
          have hb : decide (d0.tag = d.tag ∧ d0.type = d.type) = false := by
            simp only [decide_eq_false_iff_not, not_and]
            intro h1 h2
            rcases hne with h3 | h3
            · exact h3 h1
            · exact h3 h2
          simp only [List.find?_cons, hb]
          exact ih hp.2 h
    rw [key tagged_values hpair hd]

/-- Instance of C15: `set(B{2})` on `exception_info().set(A{1})`. -/
theorem set_prepends_one_node_witness :
    sample.A1.1.is_chain sample.A1.2._data
      [{ data := [{ tag := 0, type := 0, _value := 1 }], next := none }] ∧
    sample.A1B2.1.is_chain sample.A1B2.2._data
      [{ data := [{ tag := 1, type := 0, _value := 2 }], next := some 0 },
        { data := [{ tag := 0, type := 0, _value := 1 }], next := none }] :=
  ⟨by decide,
    (set_prepends_one_node sample.A1.1 sample.A1.2
      [{ data := [{ tag := 0, type := 0, _value := 1 }], next := none }]
      [{ tag := 1, type := 0, _value := 2 }] (by decide)).1⟩

/-- C16 fails as stated: no program reaches a state in which two
`exception_info` objects share a node, the class being move-only with a
`std::unique_ptr` head, so there are no two instances with a common prefix
chain.  The one way to let a second object continue the chain of a first one is
a move, which empties the source: in `x0.set(A{1}); exception_info
x1(std::move(x0)); x0.set(B{2}); x1.set(C{3});` the object `x0` retrieves its
own `B` and not the fact `A` set before the move, `x1` retrieves `C` and `A`,
and their chains are the nodes at the addresses 1 and 2, 0. -/
theorem no_two_objects_share_a_node :
    (¬ ∃ (ops : List (Operation Nat Nat Nat)) (x y a : Nat),
      x ≠ y ∧ (Objects.run ops).reaches x a ∧ (Objects.run ops).reaches y a) ∧
    (Objects.run sample.handed_over).store.is_path
      ((Objects.run sample.handed_over).objs 0)._data [1] ∧
    (Objects.run sample.handed_over).store.is_path
      ((Objects.run sample.handed_over).objs 1)._data [2, 0] ∧
    exception_info.get 2 (Objects.run sample.handed_over).store
      ((Objects.run sample.handed_over).objs 0) 0 0 = some none ∧
    exception_info.get 2 (Objects.run sample.handed_over).store
      ((Objects.run sample.handed_over).objs 0) 1 0 = some (some 2) ∧
    exception_info.get 2 (Objects.run sample.handed_over).store
      ((Objects.run sample.handed_over).objs 1) 0 0 = some (some 1) ∧
    exception_info.get 2 (Objects.run sample.handed_over).store
      ((Objects.run sample.handed_over).objs 1) 2 0 = some (some 3) := by
  refine ⟨?_, by decide, by decide, by decide, by decide, by decide, by decide⟩
  rintro ⟨ops, x, y, a, hxy, hx, hy⟩
  exact (run_exclusive ops).2 x y a hxy hx hy

/-- C16 as amended: in every state a program reaches by default construction,
`set`, move construction and move assignment, two distinct `exception_info`
objects have no node in common.  Each object retrieves by `get<Tag>()` the
first matching fact of its own chain, scanned from the head; a `set` on one
object leaves the chain of the other and the result of its every `get<Tag>()`
as they were, puts the new node in front of the own chain, and the two objects
still have no node in common. -/
theorem objects_own_their_chains {Tag Ty V : Type} [DecidableEq Tag] [DecidableEq Ty]
    (ops : List (Operation Tag Ty V)) (x y : Nat)
    (tagged_values : List (error_info Tag Ty V)) (hxy : x ≠ y) :
    (∀ a, (Objects.run ops).reaches x a → ¬ (Objects.run ops).reaches y a) ∧
    (∃ own other : List (detail.exception_info_node Tag Ty V),
      (Objects.run ops).store.is_chain ((Objects.run ops).objs x)._data own ∧
      (Objects.run ops).store.is_chain ((Objects.run ops).objs y)._data other ∧
      (∀ tag type fuel, own.length ≤ fuel →
        exception_info.get fuel (Objects.run ops).store ((Objects.run ops).objs x) tag type =
          some (scan_front_to_back own tag type)) ∧
      (∀ tag type fuel, other.length ≤ fuel →
        exception_info.get fuel (Objects.run ops).store ((Objects.run ops).objs y) tag type =
          some (scan_front_to_back other tag type)) ∧
      (Objects.run (ops ++ [.set x tagged_values])).store.is_chain
        ((Objects.run (ops ++ [.set x tagged_values])).objs x)._data
        ({ data := tagged_values, next := ((Objects.run ops).objs x)._data } :: own) ∧
      (Objects.run (ops ++ [.set x tagged_values])).objs y = (Objects.run ops).objs y ∧
      (Objects.run (ops ++ [.set x tagged_values])).store.is_chain
        ((Objects.run (ops ++ [.set x tagged_values])).objs y)._data other ∧
      (∀ tag type fuel, other.length ≤ fuel →
        exception_info.get fuel (Objects.run (ops ++ [.set x tagged_values])).store
            ((Objects.run (ops ++ [.set x tagged_values])).objs y) tag type =
          exception_info.get fuel (Objects.run ops).store ((Objects.run ops).objs y)
            tag type)) ∧
    (∀ a, (Objects.run (ops ++ [.set x tagged_values])).reaches x a →
      ¬ (Objects.run (ops ++ [.set x tagged_values])).reaches y a) := by
  have hex := run_exclusive ops
  have hex2 := run_exclusive (ops ++ [.set x tagged_values])
  obtain ⟨px, hpx⟩ := hex.1 x
  obtain ⟨py, hpy⟩ := hex.1 y
  obtain ⟨own, hown, _⟩ := is_chain_of_is_path _ px _ hpx
  obtain ⟨other, hother, _⟩ := is_chain_of_is_path _ py _ hpy
  have hyx : y ≠ x := Ne.symm hxy
  have hobjy : (Objects.run (ops ++ [.set x tagged_values])).objs y =
      (Objects.run ops).objs y := by
    rw [run_append_one]
    simp [Objects.step, Function.update_noteq hyx]
  have hstore : (Objects.run (ops ++ [.set x tagged_values])).store =
      (Objects.run ops).store ++
        [{ data := tagged_values, next := ((Objects.run ops).objs x)._data }] := by
    rw [run_append_one]
    simp [Objects.step, exception_info.set]
  have hother2 : (Objects.run (ops ++ [.set x tagged_values])).store.is_chain
      ((Objects.run (ops ++ [.set x tagged_values])).objs y)._data other := by
    rw [hobjy, hstore]
    exact is_seg_append_store _ _ other _ none hother
  refine ⟨fun a => hex.2 x y a hxy, ⟨own, other, hown, hother, ?_, ?_, ?_, hobjy, hother2, ?_⟩,
    fun a => hex2.2 x y a hxy⟩
  · intro tag type fuel hfuel
    exact get_of_chain _ tag type own _ fuel hown hfuel
  · intro tag type fuel hfuel
    exact get_of_chain _ tag type other _ fuel hother hfuel
  · rw [run_append_one]
    simp only [Objects.step, Function.update_same]
    exact set_is_chain _ _ tagged_values own none hown
  · intro tag type fuel hfuel
    rw [get_of_chain _ tag type other _ fuel hother hfuel]
    exact get_of_chain _ tag type other _ fuel hother2 hfuel

/-- Instance of amended C16: after `x0.set(A{1}); x1.set(A{1});` the two objects
hold the same fact in nodes of their own, and after `x0.set(B{2})` the object
`x1` still retrieves `A` and no `B`, while `x0` retrieves `B`. -/
theorem objects_own_their_chains_witness :
    (0 : Nat) ≠ 1 ∧
    (∀ a, (Objects.run sample.same_history).reaches 0 a →
      ¬ (Objects.run sample.same_history).reaches 1 a) ∧
    (∀ a, (Objects.run (sample.same_history ++
        [.set 0 [{ tag := 1, type := 0, _value := 2 }]])).reaches 0 a →
      ¬ (Objects.run (sample.same_history ++
        [.set 0 [{ tag := 1, type := 0, _value := 2 }]])).reaches 1 a) ∧
    exception_info.get 1
      (Objects.run (sample.same_history ++
        [.set 0 [{ tag := 1, type := 0, _value := 2 }]])).store
      ((Objects.run (sample.same_history ++
        [.set 0 [{ tag := 1, type := 0, _value := 2 }]])).objs 1) 0 0 = some (some 1) ∧
    exception_info.get 1
      (Objects.run (sample.same_history ++
        [.set 0 [{ tag := 1, type := 0, _value := 2 }]])).store
      ((Objects.run (sample.same_history ++
        [.set 0 [{ tag := 1, type := 0, _value := 2 }]])).objs 1) 1 0 = some none ∧
    exception_info.get 2
      (Objects.run (sample.same_history ++
        [.set 0 [{ tag := 1, type := 0, _value := 2 }]])).store
      ((Objects.run (sample.same_history ++
        [.set 0 [{ tag := 1, type := 0, _value := 2 }]])).objs 0) 1 0 = some (some 2) :=
  ⟨by decide,
    (objects_own_their_chains sample.same_history 0 1
      [{ tag := 1, type := 0, _value := 2 }] (by decide)).1,
    (objects_own_their_chains sample.same_history 0 1
      [{ tag := 1, type := 0, _value := 2 }] (by decide)).2.2,
    by decide, by decide, by decide⟩

/-- C17: moving an `exception_info`, by move construction or by move assignment
to another object, transfers the whole chain: the destination holds the pointer
the source held, so its chain consists of the same nodes of the same store (no
node is allocated or copied) and every `get<Tag>()` on it returns what it
returned on the source before the move; the moved-from source holds the null
pointer, its chain is empty and every `get<Tag>()` on it returns `nullptr`. -/
theorem move_transfers_chain {Tag Ty V : Type} [DecidableEq Tag] [DecidableEq Ty]
    (st : Store Tag Ty V) (self other : exception_info) (tag : Tag) (type : Ty) (fuel : Nat) :
    ((exception_info.move_construct other).1._data = other._data ∧
      (exception_info.move_construct other).2._data = none ∧
      exception_info.get fuel st (exception_info.move_construct other).1 tag type =
        exception_info.get fuel st other tag type ∧
      exception_info.get fuel st (exception_info.move_construct other).2 tag type = some none ∧
      st.is_chain (exception_info.move_construct other).2._data [] ∧
      ∀ nodes, st.is_chain other._data nodes →
        st.is_chain (exception_info.move_construct other).1._data nodes) ∧
    ((exception_info.move_assign self other).1._data = other._data ∧
      (exception_info.move_assign self other).2._data = none ∧
      exception_info.get fuel st (exception_info.move_assign self other).1 tag type =
        exception_info.get fuel st other tag type ∧
      exception_info.get fuel st (exception_info.move_assign self other).2 tag type = some none ∧
      st.is_chain (exception_info.move_assign self other).2._data [] ∧
      ∀ nodes, st.is_chain other._data nodes →
        st.is_chain (exception_info.move_assign self other).1._data nodes) := by
  refine ⟨⟨rfl, rfl, rfl, rfl, rfl, fun _ h => h⟩, ⟨rfl, rfl, rfl, rfl, rfl, fun _ h => h⟩⟩

/-- Instance of C17: moving `exception_info().set(A{1}).set(B{2})` into a new
object; the new object retrieves `A`, the source retrieves nothing. -/
theorem move_transfers_chain_witness :
    exception_info.get 2 sample.A1B2.1 (exception_info.move_construct sample.A1B2.2).1 0 0 =
      some (some 1) ∧
    exception_info.get 2 sample.A1B2.1 (exception_info.move_construct sample.A1B2.2).2 0 0 =
      some none :=
  ⟨(move_transfers_chain sample.A1B2.1 exception_info.new sample.A1B2.2 0 0 2).1.2.2.1,
    (move_transfers_chain sample.A1B2.1 exception_info.new sample.A1B2.2 0 0 2).1.2.2.2.1⟩

/-! ## Claims on decoration and recovery -/

/-- C18: for every exception value `e` and every context `xi`,
`throw_with_info(e, xi)` does not return: it raises one object whose part of
type `E` is `e` and which carries a context holding the pointer `xi` held, so
that every `get<Tag>()` on the carried context returns what it returned on `xi`;
recovering the context from the caught object invokes the continuation once,
with the carried context. -/
theorem throw_with_info_raises_carrier {E R Tag Ty V : Type} [DecidableEq Tag]
    [DecidableEq Ty] (st : Store Tag Ty V) (e : E) (xi : exception_info) (tag : Tag)
    (type : Ty) (fuel : Nat) :
    ∃ (obj : ExceptionObject E) (carried : exception_info),
      (throw_with_info e xi : Completion (ExceptionObject E) R × exception_info).1 =
        .raised obj ∧
      obj.e = e ∧ obj.info = some carried ∧ carried._data = xi._data ∧
      exception_info.get fuel st carried tag type = exception_info.get fuel st xi tag type ∧
      (∀ (X R' : Type) (f : Option exception_info → Completion X R'),
        invoke_with_exception_info_ref obj f =
          { calls := [some carried], outcome := f (some carried) }) ∧
      (∀ (X R' : Type) (f : Option exception_info → Completion X R'),
        invoke_with_exception_info_ptr (some obj) f =
          { calls := [some carried], outcome := f (some carried) }) :=
  ⟨detail.exception_with_info e xi, (exception_info.move_construct xi).1, rfl, rfl, rfl, rfl,
    rfl, fun _ _ _ => rfl, fun _ _ _ => rfl⟩

/-- Instance of C18: `throw_with_info(MyError{"x"}, xi)` with the context
`{Loc: "here"}` (tag 0): the caught object has the message "x" and its context
yields "here" for `Loc`. -/
theorem throw_with_info_raises_carrier_witness :
    ∃ (obj : ExceptionObject String) (carried : exception_info),
      (throw_with_info "x"
          (exception_info.set ([] : Store Nat Nat String) exception_info.new
            [{ tag := 0, type := 0, _value := "here" }]).2 :
        Completion (ExceptionObject String) Unit × exception_info).1 = .raised obj ∧
      obj.e = "x" ∧ obj.info = some carried ∧
      exception_info.get 1
          (exception_info.set ([] : Store Nat Nat String) exception_info.new
            [{ tag := 0, type := 0, _value := "here" }]).1 carried 0 0 =
        some (some "here") := by
  obtain ⟨obj, carried, h1, h2, h3, _, h5, _⟩ :=
    @throw_with_info_raises_carrier String Unit Nat Nat String _ _
      (exception_info.set ([] : Store Nat Nat String) exception_info.new
        [{ tag := 0, type := 0, _value := "here" }]).1 "x"
      (exception_info.set ([] : Store Nat Nat String) exception_info.new
        [{ tag := 0, type := 0, _value := "here" }]).2 0 0 1
  exact ⟨obj, carried, h1, h2, h3, h5.trans (get_after_set_on_empty_store _)⟩

/-- C19: for a captured exception handle `p` and a continuation `f`,
`invoke_with_exception_info(p, f)` invokes `f` exactly once and ends the way
that call of `f` ends, returning its result: with the carried context when `p`
holds a context-carrying fault, with `nullptr` when `p` is empty or holds a
fault that carries no context; the held fault itself does not reach the caller. -/
theorem invoke_with_handle_calls_once {E X R : Type} (p : Option (ExceptionObject E))
    (f : Option exception_info → Completion X R) :
    (invoke_with_exception_info_ptr p f).calls.length = 1 ∧
    (∀ obj xi, p = some obj → obj.info = some xi →
      invoke_with_exception_info_ptr p f = { calls := [some xi], outcome := f (some xi) }) ∧
    (∀ obj, p = some obj → obj.info = none →
      invoke_with_exception_info_ptr p f = { calls := [none], outcome := f none }) ∧
    (p = none →
      invoke_with_exception_info_ptr p f = { calls := [none], outcome := f none }) ∧
    (∀ a, (invoke_with_exception_info_ptr p f).calls = [a] →
      (invoke_with_exception_info_ptr p f).outcome = f a) := by
  rcases p with _ | obj
  · simp [invoke_with_exception_info_ptr]
  · rcases hinfo : obj.info with _ | xi
    · simp only [invoke_with_exception_info_ptr, hinfo]
      refine ⟨rfl, ?_, ?_, ?_, ?_⟩
      · intro obj1 xi1 h1 h2
        cases h1
        rw [hinfo] at h2
        cases h2
      · intro _ _ _
        trivial
      · intro h
        cases h
      · intro a ha
        cases ha
        rfl
    · simp only [invoke_with_exception_info_ptr, hinfo]
      refine ⟨rfl, ?_, ?_, ?_, ?_⟩
      · intro obj1 xi1 h1 h2
        cases h1
        rw [hinfo] at h2
        cases h2
        rfl
      · intro obj1 h1 h2
        cases h1
        rw [hinfo] at h2
        cases h2
      · intro h
        cases h
      · intro a ha
        cases ha
        rfl

/-- Instance of C19: a handle holding a fault without context; the continuation
reports whether it was given a context. -/
theorem invoke_with_handle_calls_once_witness :
    invoke_with_exception_info_ptr (some ({ e := 5, info := none } : ExceptionObject Nat))
        (fun ctx => (Completion.returned ctx.isSome : Completion Nat Bool)) =
      { calls := [none], outcome := .returned false } :=
  (invoke_with_handle_calls_once (some ({ e := 5, info := none } : ExceptionObject Nat))
    (fun ctx => (Completion.returned ctx.isSome : Completion Nat Bool))).2.2.1
      { e := 5, info := none } rfl rfl

/-- C20: the recovery utility does not raise by itself: for a live exception
reference, for a captured exception handle and for an error code, with a
continuation that does not raise, `invoke_with_exception_info` returns the
result of the continuation, which it has invoked once, with the context of the
exception at hand or with `nullptr`. -/
theorem recovery_never_raises {EC E X R : Type} (e : ExceptionObject E)
    (p : Option (ExceptionObject E)) (access_exception : EC → Option (ExceptionObject E))
    (ec : EC) (f : Option exception_info → Completion X R)
    (hf : ∀ a, ∃ r, f a = .returned r) :
    ((∃ r, (invoke_with_exception_info_ref e f).outcome = .returned r) ∧
      (invoke_with_exception_info_ref e f).calls = [e.info]) ∧
    ((∃ r, (invoke_with_exception_info_ptr p f).outcome = .returned r) ∧
      ∃ a, (invoke_with_exception_info_ptr p f).calls = [a] ∧
        (a = none ∨ ∃ obj, p = some obj ∧ obj.info = a)) ∧
    ((∃ r, (invoke_with_exception_info_ec access_exception ec f).outcome = .returned r) ∧
      ∃ a, (invoke_with_exception_info_ec access_exception ec f).calls = [a] ∧
        (a = none ∨ ∃ obj, access_exception ec = some obj ∧ obj.info = a)) := by
  have hptr : ∀ q : Option (ExceptionObject E),
      (∃ r, (invoke_with_exception_info_ptr q f).outcome = .returned r) ∧
      ∃ a, (invoke_with_exception_info_ptr q f).calls = [a] ∧
        (a = none ∨ ∃ obj, q = some obj ∧ obj.info = a) := by
    intro q
    rcases q with _ | obj
    · exact ⟨hf none, none, rfl, Or.inl rfl⟩
    · rcases hinfo : obj.info with _ | xi
      · simp only [invoke_with_exception_info_ptr, hinfo]
        exact ⟨hf none, none, rfl, Or.inl rfl⟩
      · simp only [invoke_with_exception_info_ptr, hinfo]
        exact ⟨hf (some xi), some xi, rfl, Or.inr ⟨obj, rfl, hinfo⟩⟩
  exact ⟨⟨hf e.info, rfl⟩, hptr p, hptr (access_exception ec)⟩

/-- Instance of C20: the three kinds of source with a continuation that reports
whether it was given a context. -/
theorem recovery_never_raises_witness :
    (∀ a, ∃ r, (fun ctx : Option exception_info =>
        (Completion.returned ctx.isSome : Completion Nat Bool)) a = .returned r) ∧
    (invoke_with_exception_info_ref
        ({ e := 5, info := some { _data := none } } : ExceptionObject Nat)
        (fun ctx => (Completion.returned ctx.isSome : Completion Nat Bool))).calls =
      [some { _data := none }] :=
  ⟨fun a => ⟨a.isSome, rfl⟩,
    (@recovery_never_raises Unit Nat Nat Bool
      ({ e := 5, info := some { _data := none } } : ExceptionObject Nat) none
      (fun _ => none) ()
      (fun ctx => (Completion.returned ctx.isSome : Completion Nat Bool))
      (fun a => ⟨a.isSome, rfl⟩)).1.2⟩

end hpx

namespace hpx

/-! ## Further claims on decoration and recovery -/

/-- C21: for a live exception reference `e` and a continuation `f`,
`invoke_with_exception_info(e, f)` invokes `f` once and returns what it returns:
on the context of `e` itself when `e` is a context carrier (as an object raised
by `throw_with_info` is), on `nullptr` otherwise. -/
theorem invoke_with_reference_passes_own_context {E X R : Type} (e : ExceptionObject E)
    (f : Option exception_info → Completion X R) :
    (∀ xi, e.info = some xi →
      invoke_with_exception_info_ref e f = { calls := [some xi], outcome := f (some xi) }) ∧
    (e.info = none →
      invoke_with_exception_info_ref e f = { calls := [none], outcome := f none }) ∧
    (∀ (e0 : E) (xi : exception_info),
      invoke_with_exception_info_ref (detail.exception_with_info e0 xi) f =
        { calls := [(detail.exception_with_info e0 xi).info],
          outcome := f (detail.exception_with_info e0 xi).info } ∧
      ∃ carried, (detail.exception_with_info e0 xi).info = some carried ∧
        carried._data = xi._data) := by
  refine ⟨?_, ?_, ?_⟩
  · intro xi h
    simp [invoke_with_exception_info_ref, h]
  · intro h
    simp [invoke_with_exception_info_ref, h]
  · intro e0 xi
    exact ⟨rfl, _, rfl, rfl⟩

/-- Instance of C21: a live exception without context; the continuation reports
whether it was given a context. -/
theorem invoke_with_reference_passes_own_context_witness :
    invoke_with_exception_info_ref ({ e := 5, info := none } : ExceptionObject Nat)
        (fun ctx => (Completion.returned ctx.isSome : Completion Nat Bool)) =
      { calls := [none], outcome := .returned false } :=
  (invoke_with_reference_passes_own_context ({ e := 5, info := none } : ExceptionObject Nat)
    (fun ctx => (Completion.returned ctx.isSome : Completion Nat Bool))).2.1 rfl

/-- C27: when the captured handle holds a context-carrying fault and the
continuation raises while it is invoked with that context,
`invoke_with_exception_info` ends with the fault of the continuation: the
catch-all handler of the same `try` does not catch it, and the continuation is
not invoked a second time, with `nullptr`. -/
theorem continuation_fault_propagates {E X R : Type} (obj : ExceptionObject E)
    (xi : exception_info) (f : Option exception_info → Completion X R) (x : X)
    (hinfo : obj.info = some xi) (hraise : f (some xi) = .raised x) :
    invoke_with_exception_info_ptr (some obj) f =
      { calls := [some xi], outcome := .raised x } := by
  simp [invoke_with_exception_info_ptr, hinfo, hraise]

/-- Instance of C27: a continuation that raises 9 on a context and would return
on `nullptr`. -/
theorem continuation_fault_propagates_witness :
    ({ e := 5, info := some { _data := none } } : ExceptionObject Nat).info =
      some { _data := none } ∧
    (fun ctx : Option exception_info =>
        if ctx.isSome then (Completion.raised 9 : Completion Nat Bool)
        else .returned true) (some { _data := none }) = .raised 9 ∧
    invoke_with_exception_info_ptr
        (some ({ e := 5, info := some { _data := none } } : ExceptionObject Nat))
        (fun ctx : Option exception_info =>
          if ctx.isSome then (Completion.raised 9 : Completion Nat Bool)
          else .returned true) =
      { calls := [some { _data := none }], outcome := .raised 9 } :=
  ⟨rfl, rfl,
    continuation_fault_propagates
      ({ e := 5, info := some { _data := none } } : ExceptionObject Nat) { _data := none }
      (fun ctx : Option exception_info =>
        if ctx.isSome then (Completion.raised 9 : Completion Nat Bool)
        else .returned true) 9 rfl rfl⟩

/-- C28: `throw_with_info(e)` called without a context, that is with the
default argument `exception_info()`, raises a context carrier whose context has
the empty chain: recovering from it, by reference or by handle, invokes the
continuation with a context that is not `nullptr`, and on this context
`get<Tag>()` returns `nullptr` for every tag. -/
theorem throw_without_context_carries_empty_chain {E R X R' Tag Ty V : Type}
    [DecidableEq Tag] [DecidableEq Ty] (st : Store Tag Ty V) (e : E)
    (f : Option exception_info → Completion X R') (tag : Tag) (type : Ty) (fuel : Nat) :
    ∃ (obj : ExceptionObject E) (carried : exception_info),
      (throw_with_info e exception_info.new :
        Completion (ExceptionObject E) R × exception_info).1 = .raised obj ∧
      obj.e = e ∧ obj.info = some carried ∧
      invoke_with_exception_info_ref obj f =
        { calls := [some carried], outcome := f (some carried) } ∧
      invoke_with_exception_info_ptr (some obj) f =
        { calls := [some carried], outcome := f (some carried) } ∧
      st.is_chain carried._data [] ∧
      exception_info.get fuel st carried tag type = some none :=
  ⟨detail.exception_with_info e exception_info.new,
    (exception_info.move_construct exception_info.new).1, rfl, rfl, rfl, rfl, rfl, rfl, rfl⟩

end hpx

namespace hpx.util

/-! ## Claims on the assertion harness -/

theorem check_contract_of_branches (self : detail.fixture) (c : counter_type) (cond : Prop)
    (b : Bool) (line : String) (hb : b = true ↔ cond) :
    detail.check_contract self c cond
      (if !b then
        (({ self with stream_ := self.stream_ ++ [line] } : detail.fixture).increment c, false)
      else (self, true)) := by
  by_cases hc : cond
  · have hbt : b = true := hb.2 hc
    subst hbt
    refine ⟨by simp [hc], fun _ => by simp, fun hn => absurd hc hn⟩
  · have hbf : b = false := by
      cases b with
      | false => rfl
      | true => exact absurd (hb.1 rfl) hc
    subst hbf
    refine ⟨by simp [hc], fun h => absurd h hc, fun _ => ⟨by simp, ⟨line, ?_⟩, ?_, ?_⟩⟩
    · cases c <;> simp [detail.fixture.increment]
    · cases c <;> simp [detail.fixture.increment, detail.fixture.get]
    · intro c' hne
      cases c <;> cases c' <;> simp [detail.fixture.increment, detail.fixture.get] at hne ⊢

/-- C24: each check of the harness returns true exactly when its condition
holds (`t` true; `t == u`; `t != u`; `t < u`; `t <= u`; `u <= t <= v`); when the
condition holds it writes nothing and changes no counter, and when it fails it
writes one line, adds one to the counter selected by the `counter_type`
argument, leaves the other counter alone and returns false. -/
theorem checks_follow_contract {α : Type} [DecidableEq α] [LT α] [LE α]
    [DecidableRel ((· < ·) : α → α → Prop)] [DecidableRel ((· ≤ ·) : α → α → Prop)]
    [ToString α] (self : detail.fixture) (file : String) (line : Int) (function : String)
    (c : counter_type) (b : Bool) (t u v : α) (msg : String) :
    detail.check_contract self c (b = true) (self.check_ file line function c b msg) ∧
    detail.check_contract self c (t = u) (self.check_equal file line function c t u msg) ∧
    detail.check_contract self c (t ≠ u) (self.check_not_equal file line function c t u msg) ∧
    detail.check_contract self c (t < u) (self.check_less file line function c t u msg) ∧
    detail.check_contract self c (t ≤ u)
      (self.check_less_equal file line function c t u msg) ∧
    detail.check_contract self c (u ≤ t ∧ t ≤ v)
      (self.check_range file line function c t u v msg) := by
  refine ⟨?_, ?_, ?_, ?_, ?_, ?_⟩
  · exact check_contract_of_branches self c _ b _ Iff.rfl
  · exact check_contract_of_branches self c _ (decide (t = u)) _ (by simp)
  · exact check_contract_of_branches self c _ (decide (t ≠ u)) _ (by simp)
  · exact check_contract_of_branches self c _ (decide (t < u)) _ (by simp)
  · exact check_contract_of_branches self c _ (decide (t ≤ u)) _ (by simp)
  · exact check_contract_of_branches self c _ (decide (t ≥ u) && decide (t ≤ v)) _ (by simp)

/-- Instance of C24: `check_equal` on 3 and 4 for the sanity counter of a fresh
fixture. -/
theorem checks_follow_contract_witness :
    ((detail.fixture.new []).check_equal "a.cpp" 12 "main" .counter_sanity (3 : Int) 4
        "m").2 = false ∧
    ((detail.fixture.new []).check_equal "a.cpp" 12 "main" .counter_sanity (3 : Int) 4
        "m").1.get .counter_sanity = (detail.fixture.new []).get .counter_sanity + 1 :=
  ⟨((checks_follow_contract (detail.fixture.new []) "a.cpp" 12 "main" .counter_sanity true
      (3 : Int) 4 9 "m").2.1.2.2 (by decide)).1,
    ((checks_follow_contract (detail.fixture.new []) "a.cpp" 12 "main" .counter_sanity true
      (3 : Int) 4 9 "m").2.1.2.2 (by decide)).2.2.1⟩

/-- C25: `report_errors` returns 0 if and only if the sanity-failure count and
the test-failure count of the global fixture are both zero, and 1 otherwise; it
writes its summary, one line, only when it returns 1, and it leaves the fixture
with both counters as it found it. -/
theorem report_errors_result (global_fixture : detail.fixture) (stream : List String) :
    ((report_errors global_fixture stream).2.2 = 0 ↔
      global_fixture.sanity_failures_ = 0 ∧ global_fixture.test_failures_ = 0) ∧
    ((report_errors global_fixture stream).2.2 = 0 ∨
      (report_errors global_fixture stream).2.2 = 1) ∧
    ((report_errors global_fixture stream).2.2 = 0 →
      (report_errors global_fixture stream).2.1 = stream) ∧
    ((report_errors global_fixture stream).2.2 = 1 →
      ∃ summary, (report_errors global_fixture stream).2.1 = stream ++ [summary]) ∧
    (report_errors global_fixture stream).1 = global_fixture := by
  by_cases h : global_fixture.sanity_failures_ = 0 ∧ global_fixture.test_failures_ = 0
  · simp [report_errors, detail.fixture.get, h]
  · simp [report_errors, detail.fixture.get, h]

/-- Instance of C25: one failed sanity check and no failed test. -/
theorem report_errors_result_witness :
    report_errors { stream_ := [], sanity_failures_ := 1, test_failures_ := 0 } [] =
      ({ stream_ := [], sanity_failures_ := 1, test_failures_ := 0 },
        ["1 sanity check and 0 tests failed."], 1) ∧
    ((report_errors { stream_ := [], sanity_failures_ := 1, test_failures_ := 0 } []).2.2 = 0 ↔
      (1 : Nat) = 0 ∧ (0 : Nat) = 0) :=
  ⟨by decide,
    (report_errors_result { stream_ := [], sanity_failures_ := 1, test_failures_ := 0 } []).1⟩

end hpx.util

namespace hpx.parallel

/-! ## Claims on the type-erased policy and on the counts of the parallel path -/

theorem for_each_seq_policy_irrelevant {ε : Type} (fuel : Nat) (first last : Nat)
    (f : Nat → Option ε) :
    detail.for_each_seq fuel .parallel first last f =
      detail.for_each_seq fuel .sequential first last f := by
  unfold detail.for_each_seq
  cases std_for_each fuel first last f with
  | none => rfl
  | some r =>
    cases hr : r.result <;>
      simp [detail.algorithm_result.get, detail.handle_exception.call]

theorem for_each_n_seq_policy_irrelevant {ε : Type} (first count : Nat) (f : Nat → Option ε) :
    detail.for_each_n_seq .parallel first count f =
      detail.for_each_n_seq .sequential first count f := by
  unfold detail.for_each_n_seq
  cases hr : (util.loop_n first count f).result <;>
    simp [detail.algorithm_result.get, detail.handle_exception.call]

theorem as_plain_of_sync {ε T : Type} (o : Call ε (AlgResult ε T))
    (h : ∀ hd, o ≠ .returned (.deferred hd)) : o.as_plain = o := by
  rcases o with (v | hd) | flt | _
  · rfl
  · exact absurd rfl (h hd)
  · rfl
  · rfl

theorem for_each_n_seq_sync {ε : Type} (first count : Nat) (f : Nat → Option ε)
    (hd : Handle ε Nat) :
    (detail.for_each_n_seq .sequential first count f).outcome ≠ .returned (.deferred hd) := by
  simp only [detail.for_each_n_seq]
  cases (util.loop_n first count f).result <;>
    simp [detail.algorithm_result.get, detail.handle_exception.call]

theorem for_each_n_par_sync {ε : Type} (split : List Nat) (first count : Nat)
    (f : Nat → Option ε) (hd : Handle ε Nat) :
    (detail.for_each_n_par split .parallel first count f).outcome ≠
      .returned (.deferred hd) := by
  unfold detail.for_each_n_par
  split
  · simp only [util.partitioner.call]
    split <;> simp [detail.algorithm_result.get]
  · simp [detail.algorithm_result.get]

theorem for_each_seq_plain {ε : Type} (fuel : Nat) (first last : Nat) (f : Nat → Option ε) :
    (detail.for_each_seq fuel .sequential first last f).map
        (fun x => ({ work := x.work, outcome := x.outcome.as_plain } : Run ε (AlgResult ε Unit))) =
      detail.for_each_seq fuel .sequential first last f := by
  unfold detail.for_each_seq
  cases std_for_each fuel first last f with
  | none => rfl
  | some r =>
    cases hr : r.result <;>
      simp [hr, detail.algorithm_result.get, detail.handle_exception.call, Call.as_plain]

theorem for_each_fwd_plain {ε : Type} (w : Nat) (split : List Nat) (first last : Nat)
    (f : Nat → Option ε) :
    (detail.for_each_fwd w split .parallel first last f).outcome.as_plain =
      (detail.for_each_fwd w split .parallel first last f).outcome := by
  simp only [detail.for_each_fwd]
  rw [as_plain_discard_value,
    as_plain_of_sync _ (fun hd => for_each_n_par_sync split first _ f hd)]

theorem for_each_n_erased_eq_typed {ε : Type} (w : Nat) (split : List Nat)
    (held : ConcretePolicy) (cat : IteratorCategory) (first : Nat) (count : Int)
    (f : Nat → Option ε) (h : held ≠ .task) :
    for_each_n w split (.erased held) cat first count f =
      for_each_n w split (.typed held) cat first count f := by
  unfold for_each_n
  split
  · cases held with
    | task => exact absurd rfl h
    | _ => simp [detail.algorithm_result.get]
  · rcases held with _ | _ | _ <;> rcases cat with _ | _ <;>
      first
      | exact absurd rfl h
      | (simp [detail.for_each_n, detail.for_each_n_dispatch, is_seq,
          is_sequential_execution_policy, for_each_n_seq_policy_irrelevant,
          as_plain_of_sync _ (fun hd => for_each_n_seq_sync first _ f hd),
          as_plain_of_sync _ (fun hd => for_each_n_par_sync split first _ f hd)])

theorem for_each_erased_eq_typed {ε : Type} (w : Nat) (split : List Nat) (fuel : Nat)
    (held : ConcretePolicy) (cat : IteratorCategory) (first last : Nat)
    (f : Nat → Option ε) (h : held ≠ .task) :
    for_each w split fuel (.erased held) cat first last f =
      for_each w split fuel (.typed held) cat first last f := by
  unfold for_each
  rcases held with _ | _ | _ <;> rcases cat with _ | _ <;>
    first
    | exact absurd rfl h
    | (simp [detail.for_each, detail.for_each_dispatch, is_seq,
        is_sequential_execution_policy, for_each_seq_policy_irrelevant,
        for_each_seq_plain, for_each_fwd_plain])

/-- C22 fails as stated: for the type-erased policy holding the deferred policy
over forward-or-better iterators, `for_each_n` makes the applications of the
statically typed call, but the statically typed call returns a pending handle
and the call with the type-erased policy a plain iterator. -/
theorem erased_task_result_is_plain :
    for_each_n 64 [2, 3] (.typed .task) .forward_or_better 10 5
        (fun _ => (none : Option Nat)) =
      { work := .partitioned [[10, 11], [12, 13, 14]]
        outcome := .returned (.deferred (.ready 15)) } ∧
    for_each_n 64 [2, 3] (.erased .task) .forward_or_better 10 5
        (fun _ => (none : Option Nat)) =
      { work := .partitioned [[10, 11], [12, 13, 14]]
        outcome := .returned (.direct 15) } ∧
    for_each_n 64 [2, 3] (.erased .task) .forward_or_better 10 5
        (fun _ => (none : Option Nat)) ≠
      for_each_n 64 [2, 3] (.typed .task) .forward_or_better 10 5
        (fun _ => (none : Option Nat)) := by
  decide

/-- C22 as amended: for a type-erased policy holding the sequential or the
parallel policy, `for_each_n` and `for_each` are the statically typed call with
the held policy, applications and result alike.  For every held policy, the
deferred one included, the call over forward-or-better iterators re-dispatches
to the overload of the held policy: it does the work of the statically typed
call and ends as that call ends, seen through the plain return type of the
overloads for the type-erased policy, so that a returned result stands for the
value the statically typed result stands for. -/
theorem erased_policy_runs_held_policy {ε : Type} (w : Nat) (split : List Nat) (fuel : Nat)
    (held : ConcretePolicy) (cat : IteratorCategory) (first last : Nat) (count : Int)
    (f : Nat → Option ε) :
    (held ≠ .task →
      for_each_n w split (.erased held) cat first count f =
        for_each_n w split (.typed held) cat first count f ∧
      for_each w split fuel (.erased held) cat first last f =
        for_each w split fuel (.typed held) cat first last f) ∧
    (for_each_n w split (.erased held) .forward_or_better first count f).work =
      (for_each_n w split (.typed held) .forward_or_better first count f).work ∧
    (for_each_n w split (.erased held) .forward_or_better first count f).outcome =
      (for_each_n w split (.typed held) .forward_or_better first count f).outcome.as_plain ∧
    for_each w split fuel (.erased held) .forward_or_better first last f =
      (for_each w split fuel (.typed held) .forward_or_better first last f).map
        (fun x => { work := x.work, outcome := x.outcome.as_plain }) ∧
    (∀ r v,
      (for_each_n w split (.erased held) .forward_or_better first count f).outcome =
        .returned r → r.resolve = .ready v →
      ∃ r0, (for_each_n w split (.typed held) .forward_or_better first count f).outcome =
        .returned r0 ∧ r0.resolve = .ready v) := by
  have hwork : (for_each_n w split (.erased held) .forward_or_better first count f).work =
      (for_each_n w split (.typed held) .forward_or_better first count f).work := by
    unfold for_each_n
    split
    · rfl
    · cases held <;>
        simp [detail.for_each_n, detail.for_each_n_dispatch, is_seq,
          is_sequential_execution_policy]
  have hout : (for_each_n w split (.erased held) .forward_or_better first count f).outcome =
      (for_each_n w split (.typed held) .forward_or_better first count f).outcome.as_plain := by
    unfold for_each_n
    split
    · cases held <;> simp [detail.algorithm_result.get, Call.as_plain]
    · cases held <;>
        simp [detail.for_each_n, detail.for_each_n_dispatch, is_seq,
          is_sequential_execution_policy]
  refine ⟨fun h => ⟨for_each_n_erased_eq_typed w split held cat first count f h,
    for_each_erased_eq_typed w split fuel held cat first last f h⟩, hwork, hout, ?_, ?_⟩
  · unfold for_each
    cases held <;>
      simp [detail.for_each, detail.for_each_dispatch, is_seq,
        is_sequential_execution_policy]
  · intro r v hr hv
    rw [hout] at hr
    exact as_plain_returned _ r v hr hv

/-- Instance of amended C22: the type-erased policy holding the parallel policy
over forward-or-better iterators, an `f` faulting at element 2. -/
theorem erased_policy_runs_held_policy_witness :
    ConcretePolicy.parallel ≠ .task ∧
    for_each_n 64 [2, 3] (.erased .parallel) .forward_or_better 10 5
        (fun i => if i = 12 then some 7 else none) =
      for_each_n 64 [2, 3] (.typed .parallel) .forward_or_better 10 5
        (fun i => if i = 12 then some 7 else none) :=
  ⟨by decide,
    ((erased_policy_runs_held_policy 64 [2, 3] 6 .parallel .forward_or_better 10 15 5
      (fun i => if i = 12 then some 7 else none)).1 (by decide)).1⟩

/-- C23: on the parallel path of `for_each_n` with count 0 the partitioner is
not invoked, `f` is applied to nothing and the call returns the result the
policy builds from `first`; the partitioner is invoked exactly when
`count > 0`. -/
theorem parallel_path_partitions_iff_positive {ε : Type} (split : List Nat)
    (p : ConcretePolicy) (first count : Nat) (f : Nat → Option ε) :
    detail.for_each_n_par split p first 0 f =
      { work := .idle
        outcome := .returned (detail.algorithm_result.get (.typed p) first) } ∧
    (detail.for_each_n_par split p first 0 f).work.applications = [] ∧
    (detail.algorithm_result.get (.typed p) first : AlgResult ε Nat).resolve = .ready first ∧
    ((∃ traces, (detail.for_each_n_par split p first count f).work = .partitioned traces) ↔
      0 < count) ∧
    ((detail.for_each_n_par split p first count f).work = .idle ↔ count = 0) := by
  refine ⟨by simp [detail.for_each_n_par], by simp [detail.for_each_n_par, Work.applications],
    ?_, ?_, ?_⟩
  · cases p <;> simp [detail.algorithm_result.get, AlgResult.resolve]
  · by_cases h : 0 < count
    · simp [detail.for_each_n_par, h, util.partitioner.call]
    · simp [detail.for_each_n_par, h]
  · by_cases h : 0 < count
    · simp [detail.for_each_n_par, h, util.partitioner.call]
      omega
    · simp [detail.for_each_n_par, h]
      omega

/-- Instance of C23: the public `for_each_n` with count 0 under the parallel
policy over forward-or-better iterators. -/
theorem parallel_path_partitions_iff_positive_witness :
    for_each_n 64 [2, 3] (.typed .parallel) .forward_or_better 10 0
        (fun _ => (some 7 : Option Nat)) =
      { work := .idle, outcome := .returned (.direct 10) } ∧
    ((∃ traces, (detail.for_each_n_par [2, 3] .parallel 10 0
        (fun _ => (some 7 : Option Nat))).work = .partitioned traces) ↔ 0 < 0) :=
  ⟨by decide,
    (parallel_path_partitions_iff_positive [2, 3] .parallel 10 0
      (fun _ => (some 7 : Option Nat))).2.2.2.1⟩

end hpx.parallel

